import Mathlib

/-!
# perf stat (apps/system/perf-tools/builtin-stat.c)

A shallow embedding of the event-spec parser, the attribute builder and the
counting session of `builtin-stat.c`, and theorems about them.

Conventions of the embedding

* A C string is a `List Char`; its terminating NUL is implicit: reading at or
  past the end of the list yields NUL, and an embedded NUL ends the string
  (`strlen` stops at it).
* The `int` counters `i`, `j`, `cnum`, `evnum` only count upwards from zero and
  are natural numbers here (strings are shorter than `INT_MAX`); status codes
  are integers.
* The fields `tv_sec` (`time_t`) and `tv_nsec` (`long`) of a `struct timespec`
  are 64-bit two's-complement integers: a subtraction on them wraps modulo
  `2 ^ 64`.
* Undefined behaviour of the C code (a write past `buf`, a read past `buf`, an
  access past the descriptor array, a write past `cmd_str`, the use of an
  unassigned `status`) is an explicit `Fault`.
* Declarations that live in headers outside `builtin-stat.c` (the event-name
  table, the default event codes, `CONFIG_SMP_NCPUS`, ...) are fields of
  `Decls`; the behaviour of external functions is a field of `Env`.
-/

namespace PerfStat

/-! ## Constants -/

/-- The NUL character that terminates a C string. -/
def NUL : Char := Char.ofNat 0

/-- The macro `PERF_STAT_DEFAULT_RUN_TIME`. -/
def PERF_STAT_DEFAULT_RUN_TIME : Nat := 5

/-- The macro `PERF_STAT_DEFAULT_MAX_EVSTR`, the size of the scratch buffer. -/
def PERF_STAT_DEFAULT_MAX_EVSTR : Nat := 64

/-- The macro `PERF_STAT_DEFAULT_MAX_CMDSTR`, the size of `cmd_str`. -/
def PERF_STAT_DEFAULT_MAX_CMDSTR : Nat := 128

/-- The errno value `EINVAL`. -/
def EINVAL : Int := 22

/-- The errno value `ENOMEM`. -/
def ENOMEM : Int := 12

/-- Undefined behaviour the C code can run into. -/
inductive Fault where
  | buf_overflow (n : Nat)
  | buf_overread
  | attrs_oob (idx : Nat)
  | cmd_overflow
  | uninit_status
  deriving DecidableEq, Repr

deriving instance DecidableEq for Except

/-! ## C strings -/

/-- The character `s[i]`; the terminator is read at and past the end. -/
def charAt (s : List Char) (i : Nat) : Char := s.getD i NUL

/-- The C library `strlen`: the number of characters before the first NUL. -/
def strlen : List Char → Nat
  | [] => 0
  | c :: cs => if c = NUL then 0 else strlen cs + 1

/-- The `n` bytes that `strncpy(dst, src, n)` writes: the characters of `src`
up to its terminator, then NUL padding. -/
def strncpy_bytes : List Char → Nat → List Char
  | _, 0 => []
  | [], n + 1 => List.replicate (n + 1) NUL
  | c :: cs, n + 1 => if c = NUL then List.replicate (n + 1) NUL else c :: strncpy_bytes cs n

/-- The C library `strncpy(dst, src, n)` on a buffer `dst`: it writes exactly
`n` bytes, which is a fault when `dst` has fewer. -/
def strncpy (dst src : List Char) (n : Nat) : Except Fault (List Char) :=
  if n ≤ dst.length then .ok (strncpy_bytes src n ++ dst.drop n)
  else .error (.buf_overflow n)

/-- The test `!strcmp(s1, buf)` where `buf` is a bounded buffer that need not
hold a terminator: the comparison walks both in step and faults when it has to
read past the end of `buf`. -/
def strcmp_eq : List Char → List Char → Except Fault Bool
  | _, [] => .error .buf_overread
  | s1, b :: bs =>
    if s1.headD NUL ≠ b then .ok false
    else if b = NUL then .ok true
    else strcmp_eq s1.tail bs

/-! ## Descriptors -/

/-- The fields of `struct perf_event_attr_s` that `builtin-stat.c` writes. -/
structure perf_event_attr_s where
  type : Nat
  size : Nat
  config : Nat
  disabled : Nat
  inherit : Nat
  deriving DecidableEq, Repr

/-- A zero-filled descriptor, as `zalloc` returns it. -/
def perf_event_attr_s.zero : perf_event_attr_s :=
  { type := 0, size := 0, config := 0, disabled := 0, inherit := 0 }

/-- Declarations from headers outside `builtin-stat.c`. -/
structure Decls where
  /-- The table `evsel_hw_names`; `PERF_COUNT_HW_MAX` is its number of entries. -/
  evsel_hw_names : List (List Char)
  /-- The table `default_hw_config` of default event codes. -/
  default_hw_config : List Nat
  /-- The number of CPUs, `CONFIG_SMP_NCPUS`. -/
  CONFIG_SMP_NCPUS : Nat
  /-- The enumerator `PERF_TYPE_HARDWARE`. -/
  PERF_TYPE_HARDWARE : Nat
  /-- The value of `sizeof(struct perf_event_attr_s)`. -/
  sizeof_attr : Nat
  /-- The enumerator `STAT_ARGS_HELP`. -/
  STAT_ARGS_HELP : Nat

/-- The bound `PERF_COUNT_HW_MAX` of the event-name table. -/
def Decls.PERF_COUNT_HW_MAX (D : Decls) : Nat := D.evsel_hw_names.length

/-! ## check_event -/

/-- The inner loop of `check_event`: starting at table index `j`, the index of
the first of the remaining table names that compares equal to `buf`, or
`PERF_COUNT_HW_MAX` when the loop runs to its end. -/
def check_event_find (buf : List Char) : List (List Char) → Nat → Except Fault Nat
  | [], j => .ok j
  | name :: rest, j =>
    match strcmp_eq name buf with
    | .error e => .error e
    | .ok true => .ok j
    | .ok false => check_event_find buf rest (j + 1)

/-- The outer loop of `check_event`, with `k` iterations left
(`k = strlen(evstr) + 1 - i`). In every state the loop reaches `cnum <= i`, so
the C expression `i - cnum` is the difference of natural numbers. -/
def check_event_loop (D : Decls) (evstr : List Char) :
    Nat → Nat → Nat → Nat → Except Fault Nat
  | 0, _, evnum, _ => .ok evnum
  | k + 1, i, evnum, cnum =>
    if charAt evstr i = ',' ∨ charAt evstr i = NUL then
      let buf := List.replicate PERF_STAT_DEFAULT_MAX_EVSTR NUL
      if i - cnum > PERF_STAT_DEFAULT_MAX_EVSTR then .ok 0
      else
        match strncpy buf (evstr.drop cnum) (i - cnum) with
        | .error e => .error e
        | .ok buf =>
          match check_event_find buf D.evsel_hw_names 0 with
          | .error e => .error e
          | .ok j =>
            if j ≥ D.PERF_COUNT_HW_MAX then .ok 0
            else check_event_loop D evstr k (i + 1) (evnum + 1) (i + 1)
    else check_event_loop D evstr k (i + 1) evnum cnum

/-- The function `check_event`: the number of events of a valid spec, 0 for an
invalid one. -/
def check_event (D : Decls) (evstr : List Char) : Except Fault Nat :=
  check_event_loop D evstr (strlen evstr + 1) 0 0 0

/-! ## set_specified_attributes -/

/-- The five field assignments `attrs[evnum].type = ...` up to
`attrs[evnum].inherit = 1`; a fault when `evnum` is past the array. -/
def set_attr (D : Decls) (attrs : List perf_event_attr_s) (evnum config : Nat) :
    Except Fault (List perf_event_attr_s) :=
  match attrs[evnum]? with
  | none => .error (.attrs_oob evnum)
  | some a =>
    .ok (attrs.set evnum
      { a with type := D.PERF_TYPE_HARDWARE, config := config, size := D.sizeof_attr,
               disabled := 1, inherit := 1 })

/-- The inner loop of `set_specified_attributes`: the first table name from
index `j` on that compares equal to `buf` fills `attrs[evnum]`; without a match
the array stays as it is. -/
def set_specified_find (D : Decls) (buf : List Char) (evnum : Nat) :
    List (List Char) → Nat → List perf_event_attr_s → Except Fault (List perf_event_attr_s)
  | [], _, attrs => .ok attrs
  | name :: rest, j, attrs =>
    match strcmp_eq name buf with
    | .error e => .error e
    | .ok true => set_attr D attrs evnum j
    | .ok false => set_specified_find D buf evnum rest (j + 1) attrs

/-- The outer loop of `set_specified_attributes`, with `k` iterations left. -/
def set_specified_loop (D : Decls) (evstr : List Char) :
    Nat → Nat → Nat → Nat → List perf_event_attr_s → Except Fault (Int × List perf_event_attr_s)
  | 0, _, _, _, attrs => .ok (0, attrs)
  | k + 1, i, evnum, cnum, attrs =>
    if charAt evstr i = ',' ∨ charAt evstr i = NUL then
      let buf := List.replicate PERF_STAT_DEFAULT_MAX_EVSTR NUL
      if i - cnum > PERF_STAT_DEFAULT_MAX_EVSTR then .ok (-EINVAL, attrs)
      else
        match strncpy buf (evstr.drop cnum) (i - cnum) with
        | .error e => .error e
        | .ok buf =>
          match set_specified_find D buf evnum D.evsel_hw_names 0 attrs with
          | .error e => .error e
          | .ok attrs => set_specified_loop D evstr k (i + 1) (evnum + 1) (i + 1) attrs
    else set_specified_loop D evstr k (i + 1) evnum cnum attrs

/-- The function `set_specified_attributes`: its status and the array. -/
def set_specified_attributes (D : Decls) (evstr : List Char) (attrs : List perf_event_attr_s) :
    Except Fault (Int × List perf_event_attr_s) :=
  set_specified_loop D evstr (strlen evstr + 1) 0 0 0 attrs

/-! ## The session state and the external collaborators -/

/-- A live counter instance (`struct evsel_s`), known here only by a handle. -/
structure evsel_s where
  handle : Nat
  deriving DecidableEq, Repr

/-- The C `struct timespec`. -/
structure timespec where
  tv_sec : Int
  tv_nsec : Int
  deriving DecidableEq, Repr

/-- The fields of `struct stat_args_s` that `builtin-stat.c` reads. The count
`cmd_nr` is the number of entries of `cmd_args`; `events` is `none` for a NULL
pointer. -/
structure stat_args_s where
  type : Nat
  cpu : Int
  pid : Int
  cmd_args : List (List Char)
  events : Option (List Char)
  deriving DecidableEq, Repr

/-- The field `cmd_nr` of `struct stat_args_s`. -/
def stat_args_s.cmd_nr (a : stat_args_s) : Nat := a.cmd_args.length

/-- The fields of `struct evlist_s` that `builtin-stat.c` uses; `entries` is the
list of registered counter instances; a `none` is a NULL pointer. -/
structure evlist_s where
  type : Nat
  system_wide : Bool
  cpu : Int
  pid : Int
  cmd_str : Option (List Char)
  sec : Nat
  defult_attrs : Bool
  attrs : Option (List perf_event_attr_s)
  entries : List evsel_s
  deriving DecidableEq, Repr

/-- A call of an external function, as recorded in the session log. The
diagnostic `printf` calls are not recorded. -/
inductive Call where
  | zalloc (nbytes : Nat)
  | evlist_add_attrs (attrs : Option (List perf_event_attr_s)) (nr : Nat) (cpu : Int)
  | evsel_count_start (e : evsel_s)
  | evsel_read_counter (e : evsel_s)
  | evsel_count_end (e : evsel_s)
  | system (cmd : List Char)
  | sleep (sec : Nat)
  | clock_gettime
  | print_counters (ts : timespec)
  | stat_cmds_help
  | evlist_new
  | evlist_delete
  deriving DecidableEq, Repr

/-- The behaviour of the external functions during one run of `cmd_stat`. -/
structure Env where
  /-- Whether `zalloc(nbytes)` returns a non-NULL pointer. -/
  zalloc : Nat → Bool
  /-- The registry function `evlist_add_attrs(evlist, attrs, nr, cpu)`: its
  status and the list of registered counters after the call. -/
  evlist_add_attrs : List evsel_s → Option (List perf_event_attr_s) → Nat → Int →
    Int × List evsel_s
  /-- The status of `evsel_count_start`. -/
  evsel_count_start : evsel_s → Int
  /-- The status of `evsel_read_counter`. -/
  evsel_read_counter : evsel_s → Int
  /-- The status of `evsel_count_end`. -/
  evsel_count_end : evsel_s → Int
  /-- The status of `system(cmd)`. -/
  system : List Char → Int
  /-- The time the first `clock_gettime` call reports. -/
  start_time : timespec
  /-- The time the second `clock_gettime` call reports. -/
  end_time : timespec
  /-- The status and the filled `stat_args` of `parse_stat_options`. -/
  parse_stat_options : List (List Char) → Int × stat_args_s
  /-- The result of `evlist_new`, `none` for NULL. -/
  evlist_new : Option evlist_s

/-- The mutable state of a run: the evlist and the log of external calls, the
latest call last. -/
structure World where
  evlist : evlist_s
  log : List Call
  deriving DecidableEq, Repr

/-- Appends a call to the log. -/
def World.call (w : World) (c : Call) : World := { w with log := w.log ++ [c] }

/-! ## add_specified_attributes, add_default_attributes -/

/-- The loop `for (int i = 0; i < CONFIG_SMP_NCPUS; i++) status =
evlist_add_attrs(evlist, evlist->attrs, evnum, i);` with `k` iterations left;
`status` is `none` while the C variable is unassigned. -/
def add_attrs_loop (X : Env) (evnum : Nat) : Nat → Nat → Option Int → World → Option Int × World
  | 0, _, status, w => (status, w)
  | k + 1, i, _, w =>
    let r := X.evlist_add_attrs w.evlist.entries w.evlist.attrs evnum i
    add_attrs_loop X evnum k (i + 1) (some r.1)
      { evlist := { w.evlist with entries := r.2 },
        log := w.log ++ [Call.evlist_add_attrs w.evlist.attrs evnum i] }

/-- The registration step shared by `add_specified_attributes` (lines 216-228)
and `add_default_attributes` (lines 262-274); `status` is the value of the C
variable before the step. -/
def add_attrs (D : Decls) (X : Env) (evnum : Nat) (status : Option Int) (w : World) :
    Except Fault (Int × World) :=
  if w.evlist.system_wide then
    match add_attrs_loop X evnum D.CONFIG_SMP_NCPUS 0 status w with
    | (none, _) => .error .uninit_status
    | (some st, w1) => .ok (st, w1)
  else
    let r := X.evlist_add_attrs w.evlist.entries w.evlist.attrs evnum w.evlist.cpu
    .ok (r.1, { evlist := { w.evlist with entries := r.2 },
                log := w.log ++ [Call.evlist_add_attrs w.evlist.attrs evnum w.evlist.cpu] })

/-- The function `add_specified_attributes`. -/
def add_specified_attributes (D : Decls) (X : Env) (w : World) (evstr : Option (List Char)) :
    Except Fault (Int × World) :=
  match evstr with
  | none => .ok (-EINVAL, w)
  | some evstr =>
    match check_event D evstr with
    | .error e => .error e
    | .ok evnum =>
      if evnum = 0 then .ok (-EINVAL, w)
      else
        let w1 := w.call (Call.zalloc (evnum * D.sizeof_attr))
        if !X.zalloc (evnum * D.sizeof_attr) then
          .ok (-ENOMEM, { w1 with evlist := { w1.evlist with attrs := none } })
        else
          match set_specified_attributes D evstr (List.replicate evnum perf_event_attr_s.zero) with
          | .error e => .error e
          | .ok r =>
            add_attrs D X evnum none { w1 with evlist := { w1.evlist with attrs := some r.2 } }

/-- The loop of `set_default_attributes` with `k` iterations left. -/
def set_default_loop (D : Decls) (config : List Nat) :
    Nat → Nat → List perf_event_attr_s → Except Fault (List perf_event_attr_s)
  | 0, _, attrs => .ok attrs
  | k + 1, i, attrs =>
    match config[i]? with
    | none => .error (.attrs_oob i)
    | some c =>
      match set_attr D attrs i c with
      | .error e => .error e
      | .ok attrs => set_default_loop D config k (i + 1) attrs

/-- The function `set_default_attributes`: its status and the array. -/
def set_default_attributes (D : Decls) (config : List Nat) (nr : Nat)
    (attrs : List perf_event_attr_s) : Except Fault (Int × List perf_event_attr_s) :=
  match set_default_loop D config nr 0 attrs with
  | .error e => .error e
  | .ok attrs => .ok (0, attrs)

/-- The function `add_default_attributes`. -/
def add_default_attributes (D : Decls) (X : Env) (w : World) : Except Fault (Int × World) :=
  let evnum := D.default_hw_config.length
  let w1 := w.call (Call.zalloc (evnum * D.sizeof_attr))
  if !X.zalloc (evnum * D.sizeof_attr) then
    .ok (-ENOMEM, { w1 with evlist := { w1.evlist with attrs := none } })
  else
    match set_default_attributes D D.default_hw_config evnum
        (List.replicate evnum perf_event_attr_s.zero) with
    | .error e => .error e
    | .ok r =>
      add_attrs D X evnum (some 0) { w1 with evlist := { w1.evlist with attrs := some r.2 } }

/-! ## perf_stat_handle -/

/-- Modelled from the spec: the macro `evlist_for_each_evsel(evlist, node, func,
status)` of `evlist.h`, which is not part of the sources at hand. It applies
`func` to every registered counter instance in list order and leaves the status
of the latest call in `status`; `mk` is the log entry of one call. -/
def evlist_for_each_evsel (func : evsel_s → Int) (mk : evsel_s → Call) :
    List evsel_s → Int → List Call → Int × List Call
  | [], status, log => (status, log)
  | e :: es, _, log => evlist_for_each_evsel func mk es (func e) (log ++ [mk e])

/-- Lines 297-301 of `perf_stat_handle`: the read pass, the count-end pass and
the return. -/
def perf_stat_handle_finish (X : Env) (status : Int) (w : World) : Int × World :=
  let r := evlist_for_each_evsel X.evsel_read_counter Call.evsel_read_counter
    w.evlist.entries status w.log
  let r := evlist_for_each_evsel X.evsel_count_end Call.evsel_count_end
    w.evlist.entries r.1 r.2
  (r.1, { w with log := r.2 })

/-- The function `perf_stat_handle`. -/
def perf_stat_handle (X : Env) (w : World) : Int × World :=
  let r := evlist_for_each_evsel X.evsel_count_start Call.evsel_count_start
    w.evlist.entries 0 w.log
  match w.evlist.cmd_str with
  | some cmd =>
    let status := X.system cmd
    let w1 : World := { w with log := r.2 ++ [Call.system cmd] }
    if status ≠ 0 then (status, w1)
    else perf_stat_handle_finish X status w1
  | none =>
    let w1 : World :=
      { evlist := { w.evlist with sec := PERF_STAT_DEFAULT_RUN_TIME },
        log := r.2 ++ [Call.sleep PERF_STAT_DEFAULT_RUN_TIME] }
    perf_stat_handle_finish X r.1 w1

/-! ## run_perf_stat, cmd_stat -/

/-- The C library `strcat(cmd_str, src)` on the 128-byte buffer `cmd_str`
holding the string `dst`: a fault when the result and its terminator do not
fit. -/
def strcat (dst src : List Char) : Except Fault (List Char) :=
  if dst.length + strlen src + 1 ≤ PERF_STAT_DEFAULT_MAX_CMDSTR then
    .ok (dst ++ src.take (strlen src))
  else .error .cmd_overflow

/-- The loop of lines 321-325 over the remaining arguments. -/
def cmd_str_loop : List (List Char) → List Char → Except Fault (List Char)
  | [], cmd_str => .ok cmd_str
  | arg :: rest, cmd_str =>
    match strcat cmd_str arg with
    | .error e => .error e
    | .ok c1 =>
      match strcat c1 [' '] with
      | .error e => .error e
      | .ok c2 => cmd_str_loop rest c2

/-- The width in bits of `time_t`, the type of `tv_sec`. -/
def TIME_T_BITS : Nat := 64

/-- The width in bits of `long`, the type of `tv_nsec`. -/
def LONG_BITS : Nat := 64

/-- The value a signed field of `bits` bits holds after the integer `x` is
stored into it: `x` reduced modulo `2 ^ bits` into
`-2 ^ (bits - 1) .. 2 ^ (bits - 1) - 1`. -/
def wrap_signed (bits : Nat) (x : Int) : Int :=
  (x + ((2 ^ (bits - 1) : Nat) : Int)) % ((2 ^ bits : Nat) : Int)
    - ((2 ^ (bits - 1) : Nat) : Int)

/-- Lines 360-361: the elapsed time, the two fields subtracted one by one,
each in its own fixed-width type. -/
def run_time (start_time end_time : timespec) : timespec :=
  { tv_sec := wrap_signed TIME_T_BITS (end_time.tv_sec - start_time.tv_sec),
    tv_nsec := wrap_signed LONG_BITS (end_time.tv_nsec - start_time.tv_nsec) }

/-- Lines 350-365 of `run_perf_stat`: the timed session and the report. -/
def run_perf_stat_session (X : Env) (w : World) : Int × World :=
  let w1 := w.call Call.clock_gettime
  let r := perf_stat_handle X w1
  if r.1 ≠ 0 then r
  else
    let w2 := r.2.call Call.clock_gettime
    (r.1, w2.call (Call.print_counters (run_time X.start_time X.end_time)))

/-- Lines 314-328 of `run_perf_stat`: the target is copied from `stat_args`
and, when there are workload arguments, the command line is built in `cmd_str`
and `evlist->cmd_str` points to it. -/
def run_perf_stat_cmd (w : World) (stat_args : stat_args_s) : Except Fault World :=
  let w1 : World :=
    { w with evlist := { w.evlist with cpu := stat_args.cpu, pid := stat_args.pid } }
  if stat_args.cmd_nr > 0 then
    match cmd_str_loop stat_args.cmd_args [] with
    | .error e => .error e
    | .ok cmd_str => .ok { w1 with evlist := { w1.evlist with cmd_str := some cmd_str } }
  else .ok w1

/-- Lines 330-348 of `run_perf_stat`: the descriptors are built and registered;
the result is `status` after these lines. -/
def run_perf_stat_register (D : Decls) (X : Env) (w : World) (stat_args : stat_args_s) :
    Except Fault (Int × World) :=
  match stat_args.events with
  | some evstr =>
    let w1 : World := { w with evlist := { w.evlist with defult_attrs := false } }
    match add_specified_attributes D X w1 (some evstr) with
    | .error e => .error e
    | .ok r =>
      if r.1 ≠ 0 then .ok (r.1, r.2.call Call.stat_cmds_help)
      else .ok r
  | none =>
    let w1 : World := { w with evlist := { w.evlist with defult_attrs := true } }
    add_default_attributes D X w1

/-- The function `run_perf_stat`: a non-zero status of the registration is
returned at once, otherwise the timed session runs. -/
def run_perf_stat (D : Decls) (X : Env) (w : World) (stat_args : stat_args_s) :
    Except Fault (Int × World) :=
  match run_perf_stat_cmd w stat_args with
  | .error e => .error e
  | .ok w1 =>
    match run_perf_stat_register D X w1 stat_args with
    | .error e => .error e
    | .ok r =>
      if r.1 ≠ 0 then .ok r
      else .ok (run_perf_stat_session X r.2)

/-- Lines 393-401 of `cmd_stat`: the type and the targeting mode of the fresh
evlist. -/
def cmd_stat_evlist (evlist : evlist_s) (stat_args : stat_args_s) : evlist_s :=
  { evlist with
    type := stat_args.type,
    system_wide := if stat_args.pid = -1 ∧ stat_args.cpu = -1 then true else false }

/-- The function `cmd_stat`: its status and the log of external calls. -/
def cmd_stat (D : Decls) (X : Env) (argv : List (List Char)) : Except Fault (Int × List Call) :=
  let p := X.parse_stat_options argv
  if p.1 ≠ 0 ∨ p.2.type = D.STAT_ARGS_HELP then .ok (p.1, [Call.stat_cmds_help])
  else
    match X.evlist_new with
    | none => .ok (-ENOMEM, [Call.evlist_new])
    | some evlist =>
      match run_perf_stat D X
          { evlist := cmd_stat_evlist evlist p.2, log := [Call.evlist_new] } p.2 with
      | .error e => .error e
      | .ok r => .ok (r.1, r.2.log ++ [Call.evlist_delete])

/-! ## The words of the specification -/

/-- Whether a log entry is a call made by the registration step: `zalloc`,
`evlist_add_attrs` or the usage text. -/
def Call.is_registration : Call → Bool
  | .zalloc _ => true
  | .evlist_add_attrs _ _ _ => true
  | .stat_cmds_help => true
  | _ => false

/-- Whether a log entry is a call made by the timed session: the clock, the
counter passes, the workload and the report. -/
def Call.is_session : Call → Bool
  | .evsel_count_start _ => true
  | .evsel_read_counter _ => true
  | .evsel_count_end _ => true
  | .system _ => true
  | .sleep _ => true
  | .clock_gettime => true
  | .print_counters _ => true
  | _ => false

/-- The content of a C string: its characters before the terminator. -/
def cstr (s : List Char) : List Char := s.take (strlen s)

/-- The comma-delimited pieces of a list of characters: one more than it has
commas. -/
def splitComma : List Char → List (List Char)
  | [] => [[]]
  | c :: cs =>
    if c = ',' then [] :: splitComma cs
    else
      match splitComma cs with
      | [] => [[c]]
      | t :: ts => (c :: t) :: ts

/-- The comma-delimited tokens of an event spec string. -/
def tokens (evstr : List Char) : List (List Char) := splitComma (cstr evstr)

/-- The scratch buffer after `memset` and `strncpy` of the token `t`. -/
def padded (t : List Char) : List Char :=
  t ++ List.replicate (PERF_STAT_DEFAULT_MAX_EVSTR - t.length) NUL

/-- What `check_event` does token by token (a proof device, related to the
loop by `check_event_loop_eq`). -/
def check_tokens (D : Decls) : List (List Char) → Nat → Except Fault Nat
  | [], evnum => .ok evnum
  | t :: ts, evnum =>
    if t.length > PERF_STAT_DEFAULT_MAX_EVSTR then .ok 0
    else
      match check_event_find (padded t) D.evsel_hw_names 0 with
      | .error e => .error e
      | .ok j =>
        if j ≥ D.PERF_COUNT_HW_MAX then .ok 0
        else check_tokens D ts (evnum + 1)

/-- What `set_specified_attributes` does token by token (a proof device,
related to the loop by `set_specified_loop_eq`). -/
def set_tokens (D : Decls) :
    List (List Char) → Nat → List perf_event_attr_s → Except Fault (Int × List perf_event_attr_s)
  | [], _, attrs => .ok (0, attrs)
  | t :: ts, evnum, attrs =>
    if t.length > PERF_STAT_DEFAULT_MAX_EVSTR then .ok (-EINVAL, attrs)
    else
      match set_specified_find D (padded t) evnum D.evsel_hw_names 0 attrs with
      | .error e => .error e
      | .ok attrs => set_tokens D ts (evnum + 1) attrs

/-- The table index of a name: the position of its first occurrence, the
table length when it does not occur. -/
def table_index (t : List Char) : List (List Char) → Nat
  | [] => 0
  | name :: rest => if name = t then 0 else table_index t rest + 1

/-- The descriptor that both builders write for the event code `config`. -/
def hw_attr (D : Decls) (config : Nat) : perf_event_attr_s :=
  { type := D.PERF_TYPE_HARDWARE, size := D.sizeof_attr, config := config,
    disabled := 1, inherit := 1 }

/-- Whether a log entry is a call of `evlist_add_attrs`. -/
def Call.is_add_attrs : Call → Bool
  | .evlist_add_attrs _ _ _ => true
  | _ => false

/-- The registration calls the specification asks for: one per CPU index
`0 .. CONFIG_SMP_NCPUS - 1` in system-wide mode, one for `cpu` otherwise, all
with the same descriptor array and count. -/
def add_attrs_calls (D : Decls) (system_wide : Bool) (cpu : Int)
    (attrs : Option (List perf_event_attr_s)) (evnum : Nat) : List Call :=
  if system_wide then
    (List.range D.CONFIG_SMP_NCPUS).map (fun (i : Nat) => Call.evlist_add_attrs attrs evnum i)
  else [Call.evlist_add_attrs attrs evnum cpu]

/-- The calls of one `perf_stat_handle` run on the evlist: the start pass, the
workload, and unless the command fails the read pass and the count-end
pass. -/
def handle_calls (X : Env) (evlist : evlist_s) : List Call :=
  evlist.entries.map Call.evsel_count_start ++
    match evlist.cmd_str with
    | some cmd =>
      Call.system cmd ::
        (if X.system cmd ≠ 0 then []
         else evlist.entries.map Call.evsel_read_counter
           ++ evlist.entries.map Call.evsel_count_end)
    | none =>
      Call.sleep PERF_STAT_DEFAULT_RUN_TIME ::
        (evlist.entries.map Call.evsel_read_counter
          ++ evlist.entries.map Call.evsel_count_end)

/-! ## Examples -/

/-- A small event table for the examples. -/
def exDecls : Decls :=
  { evsel_hw_names := ["cycles".toList, "instructions".toList, "cache-misses".toList],
    default_hw_config := [0, 1, 2],
    CONFIG_SMP_NCPUS := 2,
    PERF_TYPE_HARDWARE := 0,
    sizeof_attr := 128,
    STAT_ARGS_HELP := 1 }

/-- A fresh evlist, as `evlist_new` returns it. -/
def exEvlist : evlist_s :=
  { type := 0, system_wide := false, cpu := 0, pid := 0, cmd_str := none, sec := 0,
    defult_attrs := false, attrs := none, entries := [] }

/-- An environment in which every external call succeeds: the registry adds
one counter per descriptor, with handle `100 * cpu + k`. -/
def exEnv : Env :=
  { zalloc := fun _ => true,
    evlist_add_attrs := fun entries _ nr cpu =>
      (0, entries ++ (List.range nr).map (fun k => { handle := 100 * cpu.toNat + k })),
    evsel_count_start := fun _ => 0,
    evsel_read_counter := fun _ => 0,
    evsel_count_end := fun _ => 0,
    system := fun _ => 0,
    start_time := { tv_sec := 10, tv_nsec := 900000000 },
    end_time := { tv_sec := 15, tv_nsec := 100000000 },
    parse_stat_options := fun argv =>
      (0, { type := 0, cpu := -1, pid := -1, cmd_args := argv, events := none }),
    evlist_new := some exEvlist }

/-- A spec whose second token has 65 characters. -/
def exLongSpec : List Char := "cycles,".toList ++ List.replicate 65 'x' ++ ",cycles".toList

/-- A spec whose second token has exactly 64 characters. -/
def exFullSpec : List Char := "cycles,".toList ++ List.replicate 64 'x'

/-- As `exEnv`, but the registry fails with `-ENOMEM` on CPU 0 (and registers
nothing there). -/
def exFailEnv : Env :=
  { exEnv with
    evlist_add_attrs := fun entries _ nr cpu =>
      if cpu = 0 then (-ENOMEM, entries)
      else (0, entries ++ (List.range nr).map (fun k => { handle := 100 * cpu.toNat + k })) }

/-- As `exEnv`, but the registry rejects every registration with `-EINVAL`. -/
def exRejectEnv : Env :=
  { exEnv with evlist_add_attrs := fun entries _ _ _ => (-EINVAL, entries) }

/-- As `exEnv`, but the workload command exits with status 3. -/
def exCmdFailEnv : Env := { exEnv with system := fun _ => 3 }

/-- The arguments of `perf stat` without options. -/
def exArgs : stat_args_s :=
  { type := 0, cpu := -1, pid := -1, cmd_args := [], events := none }

/-- The arguments of `perf stat -C 1 ls -l`. -/
def exCmdArgs : stat_args_s :=
  { type := 0, cpu := 1, pid := -1, cmd_args := ["ls".toList, "-l".toList], events := none }

/-- The state right after `evlist_new`. -/
def exWorld : World := { evlist := exEvlist, log := [Call.evlist_new] }

/-- The state at the call of `run_perf_stat` in system-wide mode. -/
def exWideWorld : World :=
  { evlist := { exEvlist with system_wide := true, cpu := -1, pid := -1 },
    log := [Call.evlist_new] }

example : check_event exDecls "cycles,cache-misses".toList = .ok 2 := by decide
example : check_event exDecls "cycles,bogus".toList = .ok 0 := by decide
example : check_event exDecls "".toList = .ok 0 := by decide
example : check_event exDecls "cycles,".toList = .ok 0 := by decide
example : (set_specified_attributes exDecls "cache-misses,cycles".toList
    (List.replicate 2 perf_event_attr_s.zero)) = .ok (0,
      [{ type := 0, size := 128, config := 2, disabled := 1, inherit := 1 },
       { type := 0, size := 128, config := 0, disabled := 1, inherit := 1 }]) := by decide

/-! ## Lemmas on C strings -/

theorem NUL_ne_comma : NUL ≠ ',' := by decide

theorem strlen_le (s : List Char) : strlen s ≤ s.length := by
  induction s with
  | nil => simp [strlen]
  | cons c cs ih =>
    unfold strlen
    split
    · simp
    · simpa using ih

theorem cstr_length (s : List Char) : (cstr s).length = strlen s := by
  simp [cstr, strlen_le]

theorem NUL_not_mem_cstr (s : List Char) : NUL ∉ cstr s := by
  induction s with
  | nil => simp [cstr]
  | cons c cs ih =>
    unfold cstr strlen
    split
    · simp
    · rename_i h
      simp only [List.take_succ_cons, List.mem_cons, not_or]
      exact ⟨fun e => h e.symm, ih⟩

theorem headD_drop_strlen (s : List Char) : (s.drop (strlen s)).headD NUL = NUL := by
  induction s with
  | nil => simp [strlen]
  | cons c cs ih =>
    unfold strlen
    split
    · rename_i h
      simp [h]
    · simpa using ih

theorem cstr_append_drop (s : List Char) : cstr s ++ s.drop (strlen s) = s := by
  simp [cstr]

theorem strlen_of_not_mem (s : List Char) (h : NUL ∉ s) : strlen s = s.length := by
  induction s with
  | nil => simp [strlen]
  | cons c cs ih =>
    simp only [List.mem_cons, not_or] at h
    unfold strlen
    rw [if_neg (fun e => h.1 e.symm), ih h.2]
    simp

theorem cstr_of_not_mem (s : List Char) (h : NUL ∉ s) : cstr s = s := by
  simp [cstr, strlen_of_not_mem s h]

theorem strncpy_bytes_append (t x : List Char) (h : NUL ∉ t) :
    strncpy_bytes (t ++ x) t.length = t := by
  induction t with
  | nil => simp [strncpy_bytes]
  | cons c cs ih =>
    simp only [List.mem_cons, not_or] at h
    simp only [List.cons_append, List.length_cons, strncpy_bytes]
    rw [if_neg (fun e => h.1 e.symm)]
    exact congrArg (List.cons c) (ih h.2)

theorem strncpy_token (t x : List Char) (h : NUL ∉ t)
    (hl : t.length ≤ PERF_STAT_DEFAULT_MAX_EVSTR) :
    strncpy (List.replicate PERF_STAT_DEFAULT_MAX_EVSTR NUL) (t ++ x) t.length
      = .ok (padded t) := by
  unfold strncpy
  rw [if_pos (by simpa using hl), strncpy_bytes_append t x h]
  simp [padded]

/-! ## The loops, token by token -/

theorem splitComma_of_not_mem (a : List Char) (h : ',' ∉ a) : splitComma a = [a] := by
  induction a with
  | nil => rfl
  | cons c cs ih =>
    simp only [List.mem_cons, not_or] at h
    have e : splitComma (c :: cs) = match splitComma cs with
        | [] => [[c]]
        | t :: ts => (c :: t) :: ts := by
      rw [splitComma, if_neg (fun e => h.1 e.symm)]
    rw [e, ih h.2]

theorem splitComma_append_comma (a b : List Char) (h : ',' ∉ a) :
    splitComma (a ++ ',' :: b) = a :: splitComma b := by
  induction a with
  | nil => simp [splitComma]
  | cons c cs ih =>
    simp only [List.mem_cons, not_or] at h
    have e : splitComma (c :: (cs ++ ',' :: b)) = match splitComma (cs ++ ',' :: b) with
        | [] => [[c]]
        | t :: ts => (c :: t) :: ts := by
      rw [splitComma, if_neg (fun e => h.1 e.symm)]
    rw [List.cons_append, e, ih h.2]

theorem charAt_append (a b : List Char) : charAt (a ++ b) a.length = b.headD NUL := by
  induction a with
  | nil => cases b <;> rfl
  | cons x xs ih => simpa [charAt] using ih

theorem check_event_loop_skip (D : Decls) (s : List Char) (k i evnum cnum : Nat)
    (h : ¬(charAt s i = ',' ∨ charAt s i = NUL)) :
    check_event_loop D s (k + 1) i evnum cnum = check_event_loop D s k (i + 1) evnum cnum := by
  rw [check_event_loop, if_neg h]

theorem check_event_loop_token (D : Decls) (s : List Char) (k i evnum cnum : Nat)
    (h : charAt s i = ',' ∨ charAt s i = NUL) (tok x : List Char)
    (hs : s.drop cnum = tok ++ x) (hlen : i - cnum = tok.length) (hN : NUL ∉ tok) :
    check_event_loop D s (k + 1) i evnum cnum =
      if tok.length > PERF_STAT_DEFAULT_MAX_EVSTR then .ok 0
      else
        match check_event_find (padded tok) D.evsel_hw_names 0 with
        | .error e => .error e
        | .ok j =>
          if j ≥ D.PERF_COUNT_HW_MAX then .ok 0
          else check_event_loop D s k (i + 1) (evnum + 1) (i + 1) := by
  rw [check_event_loop, if_pos h, hs, hlen]
  by_cases hl : tok.length > PERF_STAT_DEFAULT_MAX_EVSTR
  · simp only [hl, if_true]
  · simp only [hl, if_false]
    rw [strncpy_token tok x hN (Nat.le_of_not_lt hl)]

theorem check_tokens_cons (D : Decls) (t : List Char) (ts : List (List Char)) (evnum : Nat) :
    check_tokens D (t :: ts) evnum =
      if t.length > PERF_STAT_DEFAULT_MAX_EVSTR then .ok 0
      else
        match check_event_find (padded t) D.evsel_hw_names 0 with
        | .error e => .error e
        | .ok j =>
          if j ≥ D.PERF_COUNT_HW_MAX then .ok 0
          else check_tokens D ts (evnum + 1) := by
  rw [check_tokens]

theorem check_event_loop_eq (D : Decls) (tail : List Char) (htail : tail.headD NUL = NUL) :
    ∀ (rest before tok : List Char) (evnum : Nat), NUL ∉ rest → NUL ∉ tok → ',' ∉ tok →
      check_event_loop D (before ++ (tok ++ (rest ++ tail))) (rest.length + 1)
          (before.length + tok.length) evnum before.length
        = check_tokens D (splitComma (tok ++ rest)) evnum := by
  intro rest
  induction rest with
  | nil =>
    intro before tok evnum _ hN hC
    have hc : charAt (before ++ (tok ++ ([] ++ tail))) (before.length + tok.length) = NUL := by
      have := charAt_append (before ++ tok) tail
      rw [htail] at this
      simpa using this
    rw [check_event_loop_token D _ _ _ _ _ (Or.inr hc) tok ([] ++ tail) (by simp) (by simp) hN,
      List.append_nil, splitComma_of_not_mem tok hC, check_tokens_cons]
    rfl
  | cons c r ih =>
    intro before tok evnum hR hN hC
    simp only [List.mem_cons, not_or] at hR
    have hc : charAt (before ++ (tok ++ (c :: r ++ tail))) (before.length + tok.length) = c := by
      have := charAt_append (before ++ tok) (c :: r ++ tail)
      simpa using this
    by_cases hcomma : c = ','
    · subst hcomma
      have ih1 := ih (before ++ tok ++ [',']) [] (evnum + 1) hR.2 (by simp) (by simp)
      simp only [List.length_append, List.length_singleton, List.length_nil, Nat.add_zero,
        List.nil_append, List.append_assoc, List.singleton_append] at ih1
      rw [List.length_cons,
        check_event_loop_token D _ _ _ _ _ (Or.inl hc) tok (',' :: r ++ tail) (by simp) (by simp) hN,
        splitComma_append_comma tok r hC, check_tokens_cons, ← ih1]
      simp only [List.cons_append, Nat.add_assoc]
    · have ih1 := ih before (tok ++ [c]) evnum hR.2
        (by simp only [List.mem_append, List.mem_singleton, not_or]; exact ⟨hN, hR.1⟩)
        (by simp only [List.mem_append, List.mem_singleton, not_or]
            exact ⟨hC, fun e => hcomma e.symm⟩)
      simp only [List.length_append, List.length_singleton, List.append_assoc,
        List.singleton_append] at ih1
      rw [List.length_cons, check_event_loop_skip D _ _ _ _ _
        (by rw [hc]; simp only [not_or]; exact ⟨hcomma, fun e => hR.1 e.symm⟩), ← ih1]
      simp only [List.cons_append, Nat.add_assoc]

theorem check_event_eq (D : Decls) (evstr : List Char) :
    check_event D evstr = check_tokens D (tokens evstr) 0 := by
  have h := check_event_loop_eq D (evstr.drop (strlen evstr)) (headD_drop_strlen evstr)
    (cstr evstr) [] [] 0 (NUL_not_mem_cstr evstr) (by simp) (by simp)
  simp only [List.nil_append, cstr_append_drop, cstr_length, List.length_nil,
    Nat.add_zero] at h
  exact h

theorem set_specified_loop_skip (D : Decls) (s : List Char) (k i evnum cnum : Nat)
    (attrs : List perf_event_attr_s) (h : ¬(charAt s i = ',' ∨ charAt s i = NUL)) :
    set_specified_loop D s (k + 1) i evnum cnum attrs
      = set_specified_loop D s k (i + 1) evnum cnum attrs := by
  rw [set_specified_loop, if_neg h]

theorem set_specified_loop_token (D : Decls) (s : List Char) (k i evnum cnum : Nat)
    (attrs : List perf_event_attr_s)
    (h : charAt s i = ',' ∨ charAt s i = NUL) (tok x : List Char)
    (hs : s.drop cnum = tok ++ x) (hlen : i - cnum = tok.length) (hN : NUL ∉ tok) :
    set_specified_loop D s (k + 1) i evnum cnum attrs =
      if tok.length > PERF_STAT_DEFAULT_MAX_EVSTR then .ok (-EINVAL, attrs)
      else
        match set_specified_find D (padded tok) evnum D.evsel_hw_names 0 attrs with
        | .error e => .error e
        | .ok attrs => set_specified_loop D s k (i + 1) (evnum + 1) (i + 1) attrs := by
  rw [set_specified_loop, if_pos h, hs, hlen]
  by_cases hl : tok.length > PERF_STAT_DEFAULT_MAX_EVSTR
  · simp only [hl, if_true]
  · simp only [hl, if_false]
    rw [strncpy_token tok x hN (Nat.le_of_not_lt hl)]

theorem set_tokens_cons (D : Decls) (t : List Char) (ts : List (List Char)) (evnum : Nat)
    (attrs : List perf_event_attr_s) :
    set_tokens D (t :: ts) evnum attrs =
      if t.length > PERF_STAT_DEFAULT_MAX_EVSTR then .ok (-EINVAL, attrs)
      else
        match set_specified_find D (padded t) evnum D.evsel_hw_names 0 attrs with
        | .error e => .error e
        | .ok attrs => set_tokens D ts (evnum + 1) attrs := by
  rw [set_tokens]

theorem set_specified_loop_eq (D : Decls) (tail : List Char) (htail : tail.headD NUL = NUL) :
    ∀ (rest before tok : List Char) (evnum : Nat) (attrs : List perf_event_attr_s),
      NUL ∉ rest → NUL ∉ tok → ',' ∉ tok →
      set_specified_loop D (before ++ (tok ++ (rest ++ tail))) (rest.length + 1)
          (before.length + tok.length) evnum before.length attrs
        = set_tokens D (splitComma (tok ++ rest)) evnum attrs := by
  intro rest
  induction rest with
  | nil =>
    intro before tok evnum attrs _ hN hC
    have hc : charAt (before ++ (tok ++ ([] ++ tail))) (before.length + tok.length) = NUL := by
      have := charAt_append (before ++ tok) tail
      rw [htail] at this
      simpa using this
    rw [set_specified_loop_token D _ _ _ _ _ _ (Or.inr hc) tok ([] ++ tail) (by simp) (by simp)
      hN, List.append_nil, splitComma_of_not_mem tok hC, set_tokens_cons]
    rfl
  | cons c r ih =>
    intro before tok evnum attrs hR hN hC
    simp only [List.mem_cons, not_or] at hR
    have hc : charAt (before ++ (tok ++ (c :: r ++ tail))) (before.length + tok.length) = c := by
      have := charAt_append (before ++ tok) (c :: r ++ tail)
      simpa using this
    by_cases hcomma : c = ','
    · subst hcomma
      have ih1 := fun a => ih (before ++ tok ++ [',']) [] (evnum + 1) a hR.2 (by simp) (by simp)
      simp only [List.length_append, List.length_singleton, List.length_nil, Nat.add_zero,
        List.nil_append, List.append_assoc, List.singleton_append] at ih1
      rw [List.length_cons,
        set_specified_loop_token D _ _ _ _ _ _ (Or.inl hc) tok (',' :: r ++ tail) (by simp)
          (by simp) hN,
        splitComma_append_comma tok r hC, set_tokens_cons]
      simp only [← ih1, List.cons_append, Nat.add_assoc]
    · have ih1 := ih before (tok ++ [c]) evnum attrs hR.2
        (by simp only [List.mem_append, List.mem_singleton, not_or]; exact ⟨hN, hR.1⟩)
        (by simp only [List.mem_append, List.mem_singleton, not_or]
            exact ⟨hC, fun e => hcomma e.symm⟩)
      simp only [List.length_append, List.length_singleton, List.append_assoc,
        List.singleton_append] at ih1
      rw [List.length_cons, set_specified_loop_skip D _ _ _ _ _ _
        (by rw [hc]; simp only [not_or]; exact ⟨hcomma, fun e => hR.1 e.symm⟩), ← ih1]
      simp only [List.cons_append, Nat.add_assoc]

theorem set_specified_attributes_eq (D : Decls) (evstr : List Char)
    (attrs : List perf_event_attr_s) :
    set_specified_attributes D evstr attrs = set_tokens D (tokens evstr) 0 attrs := by
  have h := set_specified_loop_eq D (evstr.drop (strlen evstr)) (headD_drop_strlen evstr)
    (cstr evstr) [] [] 0 attrs (NUL_not_mem_cstr evstr) (by simp) (by simp)
  simp only [List.nil_append, cstr_append_drop, cstr_length, List.length_nil,
    Nat.add_zero] at h
  exact h

/-! ## Table lookup -/

theorem table_index_cons_ne (t name : List Char) (rest : List (List Char)) (h : name ≠ t) :
    table_index t (name :: rest) = table_index t rest + 1 := by
  rw [table_index, if_neg h]

theorem table_index_lt (t : List Char) (names : List (List Char)) (h : t ∈ names) :
    table_index t names < names.length := by
  induction names with
  | nil => simp at h
  | cons name rest ih =>
    rw [table_index]
    by_cases hn : name = t
    · simp [hn]
    · rw [if_neg hn]
      simp only [List.mem_cons] at h
      rcases h with rfl | h
      · exact absurd rfl hn
      · simpa using ih h

theorem table_index_of_not_mem (t : List Char) (names : List (List Char)) (h : t ∉ names) :
    table_index t names = names.length := by
  induction names with
  | nil => rfl
  | cons name rest ih =>
    simp only [List.mem_cons, not_or] at h
    rw [table_index, if_neg (fun e => h.1 e.symm), ih h.2]
    rfl

theorem table_index_unique (t : List Char) (names : List (List Char)) (hd : names.Nodup) :
    ∀ j, names[j]? = some t → table_index t names = j := by
  induction names with
  | nil => intro j h; simp at h
  | cons name rest ih =>
    intro j h
    rw [List.nodup_cons] at hd
    cases j with
    | zero =>
      simp only [List.getElem?_cons_zero, Option.some.injEq] at h
      rw [table_index, if_pos h]
    | succ j =>
      simp only [List.getElem?_cons_succ] at h
      have hm : t ∈ rest := List.getElem?_mem h
      have hne : name ≠ t := fun e => hd.1 (e ▸ hm)
      rw [table_index, if_neg hne, ih hd.2 j h]

theorem padded_length (t : List Char) (h : t.length ≤ PERF_STAT_DEFAULT_MAX_EVSTR) :
    (padded t).length = PERF_STAT_DEFAULT_MAX_EVSTR := by
  simp only [padded, List.length_append, List.length_replicate]
  omega

theorem strcmp_eq_no_overread (buf : List Char) :
    ∀ name : List Char, name.length < buf.length → ∃ b, strcmp_eq name buf = .ok b := by
  induction buf with
  | nil => intro name h; simp at h
  | cons b bs ih =>
    intro name h
    rw [strcmp_eq]
    by_cases h1 : name.headD NUL ≠ b
    · exact ⟨false, by rw [if_pos h1]⟩
    · rw [if_neg h1]
      by_cases h2 : b = NUL
      · exact ⟨true, by rw [if_pos h2]⟩
      · rw [if_neg h2]
        apply ih
        cases name with
        | nil => exact absurd (not_not.mp h1).symm h2
        | cons c cs =>
          simp only [List.length_cons] at h
          simp only [List.tail_cons]
          omega

theorem strcmp_eq_padded (m : Nat) :
    ∀ (t name : List Char), NUL ∉ name → NUL ∉ t → name.length < t.length + m →
      strcmp_eq name (t ++ List.replicate m NUL) = .ok (decide (name = t)) := by
  intro t
  induction t with
  | nil =>
    intro name hn _ hl
    obtain ⟨m1, rfl⟩ : ∃ m1, m = m1 + 1 := ⟨m - 1, by simp at hl; omega⟩
    cases name with
    | nil => simp [List.replicate_succ, strcmp_eq]
    | cons c cs =>
      simp only [List.mem_cons, not_or] at hn
      have hc : c ≠ NUL := fun e => hn.1 e.symm
      simp [List.replicate_succ, strcmp_eq, hc]
  | cons b bs ih =>
    intro name hn ht hl
    simp only [List.mem_cons, not_or] at ht
    have hb : b ≠ NUL := fun e => ht.1 e.symm
    cases name with
    | nil =>
      have hb2 : NUL ≠ b := ht.1
      simp [strcmp_eq, hb2]
    | cons c cs =>
      simp only [List.mem_cons, not_or] at hn
      simp only [List.length_cons] at hl
      by_cases hcb : c = b
      · subst hcb
        have := ih cs hn.2 ht.2 (by omega)
        simp [strcmp_eq, hb, this]
      · simp [strcmp_eq, hcb]

theorem check_event_find_ok (names : List (List Char)) (buf : List Char)
    (hshort : ∀ name ∈ names, name.length < buf.length) :
    ∀ j, ∃ r, check_event_find buf names j = .ok r := by
  induction names with
  | nil => intro j; exact ⟨j, rfl⟩
  | cons name rest ih =>
    intro j
    obtain ⟨b, hb⟩ := strcmp_eq_no_overread buf name (hshort name (by simp))
    rw [check_event_find, hb]
    cases b with
    | true => exact ⟨j, rfl⟩
    | false => exact ih (fun n hn => hshort n (by simp [hn])) (j + 1)

theorem check_event_find_padded (names : List (List Char)) (t : List Char)
    (hnul : ∀ name ∈ names, NUL ∉ name)
    (hshort : ∀ name ∈ names, name.length < PERF_STAT_DEFAULT_MAX_EVSTR)
    (ht : NUL ∉ t) (hl : t.length ≤ PERF_STAT_DEFAULT_MAX_EVSTR) :
    ∀ j, check_event_find (padded t) names j = .ok (j + table_index t names) := by
  induction names with
  | nil => intro j; simp [check_event_find, table_index]
  | cons name rest ih =>
    intro j
    have h1 := strcmp_eq_padded (PERF_STAT_DEFAULT_MAX_EVSTR - t.length) t name
      (hnul name (by simp)) ht (by have := hshort name (by simp); omega)
    rw [check_event_find]
    unfold padded
    rw [h1]
    by_cases hnt : name = t
    · simp [hnt, table_index]
    · simp only [hnt, decide_False]
      have := ih (fun n hn => hnul n (by simp [hn])) (fun n hn => hshort n (by simp [hn])) (j + 1)
      unfold padded at this
      rw [this, table_index_cons_ne _ _ _ hnt]
      congr 1
      omega

theorem set_specified_find_padded (D : Decls) (names : List (List Char)) (t : List Char)
    (evnum : Nat) (attrs : List perf_event_attr_s)
    (hnul : ∀ name ∈ names, NUL ∉ name)
    (hshort : ∀ name ∈ names, name.length < PERF_STAT_DEFAULT_MAX_EVSTR)
    (ht : NUL ∉ t) (hl : t.length ≤ PERF_STAT_DEFAULT_MAX_EVSTR) :
    ∀ j, set_specified_find D (padded t) evnum names j attrs =
      if t ∈ names then set_attr D attrs evnum (j + table_index t names) else .ok attrs := by
  induction names with
  | nil => intro j; simp [set_specified_find]
  | cons name rest ih =>
    intro j
    have h1 := strcmp_eq_padded (PERF_STAT_DEFAULT_MAX_EVSTR - t.length) t name
      (hnul name (by simp)) ht (by have := hshort name (by simp); omega)
    rw [set_specified_find]
    unfold padded
    rw [h1]
    by_cases hnt : name = t
    · simp [hnt, table_index]
    · simp only [hnt, decide_False]
      have := ih (fun n hn => hnul n (by simp [hn])) (fun n hn => hshort n (by simp [hn])) (j + 1)
      unfold padded at this
      have hne : ¬ t = name := fun e => hnt e.symm
      rw [this, table_index_cons_ne _ _ _ hnt]
      simp only [List.mem_cons, hne, false_or]
      have e : j + 1 + table_index t rest = j + (table_index t rest + 1) := by omega
      rw [e]

theorem set_attr_append (D : Decls) (before rest : List perf_event_attr_s)
    (a : perf_event_attr_s) (config : Nat) :
    set_attr D (before ++ a :: rest) before.length config
      = .ok (before ++ hw_attr D config :: rest) := by
  simp [set_attr, hw_attr]

/-! ## The parser on token lists -/

theorem mem_of_mem_splitComma (l : List Char) :
    ∀ t ∈ splitComma l, ∀ c ∈ t, c ∈ l := by
  induction l with
  | nil => intro t ht c hc; simp [splitComma] at ht; subst ht; simp at hc
  | cons x xs ih =>
    intro t ht c hc
    rw [splitComma] at ht
    split at ht
    · simp only [List.mem_cons] at ht
      rcases ht with rfl | ht
      · simp at hc
      · exact List.mem_cons_of_mem _ (ih t ht c hc)
    · split at ht
      · simp only [List.mem_singleton] at ht
        subst ht
        simp only [List.mem_singleton] at hc
        simp [hc]
      · rename_i t1 ts heq
        simp only [List.mem_cons] at ht
        rcases ht with rfl | ht
        · simp only [List.mem_cons] at hc
          rcases hc with rfl | hc
          · simp
          · exact List.mem_cons_of_mem _ (ih t1 (by rw [heq]; simp) c hc)
        · exact List.mem_cons_of_mem _ (ih t (by rw [heq]; simp [ht]) c hc)

theorem splitComma_eq_splitOn (l : List Char) : splitComma l = l.splitOn ',' := by
  induction l with
  | nil => rfl
  | cons c cs ih =>
    rw [splitComma, List.splitOn, List.splitOnP_cons, ← List.splitOn, ← ih]
    by_cases h : c = ','
    · simp [h]
    · simp only [h, if_false, beq_iff_eq]
      cases hs : splitComma cs with
      | nil =>
        rw [ih] at hs
        exact absurd hs (List.splitOnP_ne_nil _ _)
      | cons t ts => rfl

theorem NUL_not_mem_token (evstr t : List Char) (ht : t ∈ tokens evstr) : NUL ∉ t :=
  fun h => NUL_not_mem_cstr evstr (mem_of_mem_splitComma _ t ht NUL h)

theorem splitComma_length (l : List Char) : (splitComma l).length = l.count ',' + 1 := by
  induction l with
  | nil => rfl
  | cons x xs ih =>
    rw [splitComma]
    by_cases hx : x = ','
    · subst hx
      simp [ih]
    · rw [if_neg hx, List.count_cons_of_ne (fun e => hx e.symm)]
      split
      · rename_i heq
        rw [heq] at ih
        simp at ih
      · rename_i t ts heq
        rw [heq] at ih
        simpa using ih

theorem check_tokens_valid (D : Decls)
    (hnul : ∀ name ∈ D.evsel_hw_names, NUL ∉ name)
    (hshort : ∀ name ∈ D.evsel_hw_names, name.length < PERF_STAT_DEFAULT_MAX_EVSTR) :
    ∀ (ts : List (List Char)) (evnum : Nat), (∀ t ∈ ts, t ∈ D.evsel_hw_names) →
      check_tokens D ts evnum = .ok (evnum + ts.length) := by
  intro ts
  induction ts with
  | nil => intro evnum _; rfl
  | cons t ts ih =>
    intro evnum hv
    have ht := hv t (by simp)
    have hl := hshort t ht
    rw [check_tokens_cons, if_neg (by omega),
      check_event_find_padded _ t hnul hshort (hnul t ht) (by omega) 0]
    simp only [Nat.zero_add, ge_iff_le, Decls.PERF_COUNT_HW_MAX]
    rw [if_neg (by have := table_index_lt t _ ht; omega),
      ih (evnum + 1) (fun t1 h1 => hv t1 (by simp [h1]))]
    simp only [List.length_cons]
    congr 1
    omega

theorem check_tokens_invalid (D : Decls)
    (hnul : ∀ name ∈ D.evsel_hw_names, NUL ∉ name)
    (hshort : ∀ name ∈ D.evsel_hw_names, name.length < PERF_STAT_DEFAULT_MAX_EVSTR) :
    ∀ (ts : List (List Char)) (evnum : Nat), (∀ t ∈ ts, NUL ∉ t) →
      (∃ t ∈ ts, t ∉ D.evsel_hw_names) → check_tokens D ts evnum = .ok 0 := by
  intro ts
  induction ts with
  | nil => intro evnum _ h; simp at h
  | cons t ts ih =>
    intro evnum hN hbad
    rw [check_tokens_cons]
    by_cases hl : t.length > PERF_STAT_DEFAULT_MAX_EVSTR
    · rw [if_pos hl]
    · rw [if_neg hl, check_event_find_padded _ t hnul hshort (hN t (by simp)) (by omega) 0]
      simp only [Nat.zero_add, ge_iff_le, Decls.PERF_COUNT_HW_MAX]
      by_cases hm : t ∈ D.evsel_hw_names
      · rw [if_neg (by have := table_index_lt t _ hm; omega)]
        apply ih (evnum + 1) (fun t1 h1 => hN t1 (by simp [h1]))
        obtain ⟨b, hb, hb2⟩ := hbad
        simp only [List.mem_cons] at hb
        rcases hb with rfl | hb
        · exact absurd hm hb2
        · exact ⟨b, hb, hb2⟩
      · rw [if_pos (by rw [table_index_of_not_mem t _ hm])]

theorem check_tokens_long (D : Decls)
    (hshort : ∀ name ∈ D.evsel_hw_names, name.length < PERF_STAT_DEFAULT_MAX_EVSTR) :
    ∀ (ts : List (List Char)) (evnum : Nat),
      (∃ t ∈ ts, t.length > PERF_STAT_DEFAULT_MAX_EVSTR) → check_tokens D ts evnum = .ok 0 := by
  intro ts
  induction ts with
  | nil => intro evnum h; simp at h
  | cons t ts ih =>
    intro evnum hlong
    rw [check_tokens_cons]
    by_cases hl : t.length > PERF_STAT_DEFAULT_MAX_EVSTR
    · rw [if_pos hl]
    · rw [if_neg hl]
      obtain ⟨j, hj⟩ := check_event_find_ok D.evsel_hw_names (padded t)
        (by rw [padded_length t (by omega)]; exact hshort) 0
      rw [hj]
      simp only
      split
      · rfl
      · apply ih
        obtain ⟨b, hb, hb2⟩ := hlong
        simp only [List.mem_cons] at hb
        rcases hb with rfl | hb
        · exact absurd hb2 hl
        · exact ⟨b, hb, hb2⟩

theorem set_tokens_valid (D : Decls)
    (hnul : ∀ name ∈ D.evsel_hw_names, NUL ∉ name)
    (hshort : ∀ name ∈ D.evsel_hw_names, name.length < PERF_STAT_DEFAULT_MAX_EVSTR) :
    ∀ (ts : List (List Char)) (before mid rest : List perf_event_attr_s),
      (∀ t ∈ ts, t ∈ D.evsel_hw_names) → mid.length = ts.length →
      set_tokens D ts before.length (before ++ mid ++ rest)
        = .ok (0, before ++ ts.map (fun t => hw_attr D (table_index t D.evsel_hw_names)) ++ rest) := by
  intro ts
  induction ts with
  | nil =>
    intro before mid rest _ hm
    have : mid = [] := List.length_eq_zero.mp hm
    subst this
    rfl
  | cons t ts ih =>
    intro before mid rest hv hm
    cases mid with
    | nil => simp at hm
    | cons a mid1 =>
      have ht := hv t (by simp)
      have hl := hshort t ht
      rw [set_tokens_cons, if_neg (by omega),
        set_specified_find_padded D _ t _ _ hnul hshort (hnul t ht) (by omega) 0, if_pos ht]
      simp only [Nat.zero_add, List.append_assoc, List.cons_append]
      rw [set_attr_append]
      simp only
      have := ih (before ++ [hw_attr D (table_index t D.evsel_hw_names)]) mid1 rest
        (fun t1 h1 => hv t1 (by simp [h1])) (by simpa using hm)
      simp only [List.length_append, List.length_singleton, List.append_assoc,
        List.singleton_append] at this
      simp only [List.cons_append] at this
      rw [this]
      simp

/-! ## C1: valid event specs -/

/-- C1. For an event spec whose comma-delimited tokens are all names of the
event table (the names pairwise distinct, free of NUL and shorter than the
64-byte scratch buffer), `check_event` returns the number of tokens, which is
the number of commas plus one, and `set_specified_attributes` returns 0 and
fills `attrs[k]`, for every token index `k`, with `type = PERF_TYPE_HARDWARE`,
`config =` the table index `j` of the `k`-th token, `disabled = 1` and
`inherit = 1` (and `size = sizeof(struct perf_event_attr_s)`), in input
order. -/
theorem check_event_set_specified_valid (D : Decls) (evstr : List Char)
    (attrs : List perf_event_attr_s)
    (hnul : ∀ name ∈ D.evsel_hw_names, NUL ∉ name)
    (hdistinct : D.evsel_hw_names.Nodup)
    (hshort : ∀ name ∈ D.evsel_hw_names, name.length < PERF_STAT_DEFAULT_MAX_EVSTR)
    (hvalid : ∀ tok ∈ tokens evstr, tok ∈ D.evsel_hw_names)
    (hlen : (tokens evstr).length ≤ attrs.length) :
    check_event D evstr = .ok (tokens evstr).length ∧
    (tokens evstr).length = (cstr evstr).count ',' + 1 ∧
    ∃ filled : List perf_event_attr_s,
      set_specified_attributes D evstr attrs = .ok (0, filled) ∧
      filled.length = attrs.length ∧
      ∀ (k j : Nat) (tok : List Char),
        (tokens evstr)[k]? = some tok → D.evsel_hw_names[j]? = some tok →
        filled[k]? = some
          { type := D.PERF_TYPE_HARDWARE, size := D.sizeof_attr, config := j,
            disabled := 1, inherit := 1 } := by
  refine ⟨?_, splitComma_length _, ?_⟩
  · rw [check_event_eq, check_tokens_valid D hnul hshort _ 0 hvalid, Nat.zero_add]
  · have h := set_tokens_valid D hnul hshort (tokens evstr) []
      (attrs.take (tokens evstr).length) (attrs.drop (tokens evstr).length) hvalid
      (by simp [hlen])
    simp only [List.nil_append, List.length_nil, List.take_append_drop] at h
    refine ⟨_, by rw [set_specified_attributes_eq]; exact h, ?_, ?_⟩
    · simp only [List.length_append, List.length_map, List.length_drop]
      omega
    · intro k j tok hk hj
      have hk2 : k < (tokens evstr).length := (List.getElem?_eq_some.mp hk).1
      rw [List.getElem?_append_left (by simpa using hk2), List.getElem?_map, hk]
      simp only [Option.map, hw_attr, table_index_unique tok _ hdistinct j hj]

/-- C1 at the spec `"cache-misses,cycles"` over a three-name table. -/
theorem check_event_set_specified_valid_witness :
    (∀ name ∈ exDecls.evsel_hw_names, NUL ∉ name) ∧
    exDecls.evsel_hw_names.Nodup ∧
    (∀ name ∈ exDecls.evsel_hw_names, name.length < PERF_STAT_DEFAULT_MAX_EVSTR) ∧
    (∀ tok ∈ tokens "cache-misses,cycles".toList, tok ∈ exDecls.evsel_hw_names) ∧
    check_event exDecls "cache-misses,cycles".toList = .ok 2 ∧
    set_specified_attributes exDecls "cache-misses,cycles".toList
        [perf_event_attr_s.zero, perf_event_attr_s.zero]
      = .ok (0, [{ type := 0, size := 128, config := 2, disabled := 1, inherit := 1 },
                 { type := 0, size := 128, config := 0, disabled := 1, inherit := 1 }]) := by
  have h := check_event_set_specified_valid exDecls "cache-misses,cycles".toList
    [perf_event_attr_s.zero, perf_event_attr_s.zero]
    (by decide) (by decide) (by decide) (by decide) (by decide)
  exact ⟨by decide, by decide, by decide, by decide, h.1, by decide⟩

/-! ## C2: invalid event specs -/

theorem check_event_invalid (D : Decls) (evstr : List Char)
    (hnul : ∀ name ∈ D.evsel_hw_names, NUL ∉ name)
    (hshort : ∀ name ∈ D.evsel_hw_names, name.length < PERF_STAT_DEFAULT_MAX_EVSTR)
    (hbad : ∃ tok ∈ tokens evstr, tok ∉ D.evsel_hw_names) :
    check_event D evstr = .ok 0 := by
  rw [check_event_eq]
  exact check_tokens_invalid D hnul hshort _ 0 (fun t ht => NUL_not_mem_token evstr t ht) hbad

theorem run_perf_stat_cmd_of_fit (w : World) (stat_args : stat_args_s)
    (cmd_str : List Char) (hcmd : cmd_str_loop stat_args.cmd_args [] = .ok cmd_str) :
    run_perf_stat_cmd w stat_args = .ok
      { w with evlist :=
        { w.evlist with
          cpu := stat_args.cpu, pid := stat_args.pid,
          cmd_str := if stat_args.cmd_nr > 0 then some cmd_str else w.evlist.cmd_str } } := by
  unfold run_perf_stat_cmd
  by_cases h : stat_args.cmd_nr > 0
  · simp only [h, if_true, hcmd]
  · simp only [h, if_false]

/-- C2. For an event spec with at least one comma-delimited token that is not a
name of the event table (names free of NUL and shorter than the scratch
buffer), `check_event` returns 0, `add_specified_attributes` returns `-EINVAL`
and leaves the session state as it was (no `zalloc`, no `evlist_add_attrs`, no
descriptor array), and `run_perf_stat`, for a workload command line that fits
`cmd_str`, returns `-EINVAL` having only printed the usage text: no counter is
registered or started. -/
theorem invalid_spec_rejected (D : Decls) (X : Env) (w : World) (stat_args : stat_args_s)
    (evstr cmd_str : List Char)
    (hnul : ∀ name ∈ D.evsel_hw_names, NUL ∉ name)
    (hshort : ∀ name ∈ D.evsel_hw_names, name.length < PERF_STAT_DEFAULT_MAX_EVSTR)
    (hbad : ∃ tok ∈ tokens evstr, tok ∉ D.evsel_hw_names)
    (hev : stat_args.events = some evstr)
    (hcmd : cmd_str_loop stat_args.cmd_args [] = .ok cmd_str) :
    check_event D evstr = .ok 0 ∧
    add_specified_attributes D X w (some evstr) = .ok (-EINVAL, w) ∧
    ∃ w1 : World, run_perf_stat D X w stat_args = .ok (-EINVAL, w1) ∧
      w1.log = w.log ++ [Call.stat_cmds_help] ∧
      w1.evlist.attrs = w.evlist.attrs ∧ w1.evlist.entries = w.evlist.entries := by
  have hc := check_event_invalid D evstr hnul hshort hbad
  have hadd : ∀ w0 : World, add_specified_attributes D X w0 (some evstr) = .ok (-EINVAL, w0) := by
    intro w0
    simp only [add_specified_attributes, hc, if_true]
  refine ⟨hc, hadd w, ?_⟩
  simp only [run_perf_stat, run_perf_stat_cmd_of_fit w stat_args cmd_str hcmd,
    run_perf_stat_register, hev, hadd]
  exact ⟨_, rfl, rfl, rfl, rfl⟩

/-- C2 at the spec `"cycles,bogus-event"` with no workload command. -/
theorem invalid_spec_rejected_witness :
    (∃ tok ∈ tokens "cycles,bogus-event".toList, tok ∉ exDecls.evsel_hw_names) ∧
    check_event exDecls "cycles,bogus-event".toList = .ok 0 ∧
    add_specified_attributes exDecls exEnv exWorld (some "cycles,bogus-event".toList)
      = .ok (-EINVAL, exWorld) ∧
    ∃ w1 : World,
      run_perf_stat exDecls exEnv exWorld
        { type := 0, cpu := -1, pid := -1, cmd_args := [],
          events := some "cycles,bogus-event".toList } = .ok (-EINVAL, w1) ∧
      w1.log = exWorld.log ++ [Call.stat_cmds_help] ∧
      w1.evlist.attrs = exWorld.evlist.attrs ∧ w1.evlist.entries = exWorld.evlist.entries :=
  ⟨by decide,
   invalid_spec_rejected exDecls exEnv exWorld
     { type := 0, cpu := -1, pid := -1, cmd_args := [],
       events := some "cycles,bogus-event".toList }
     "cycles,bogus-event".toList [] (by decide) (by decide) (by decide) rfl rfl⟩

/-! ## C3: the scratch buffer -/

theorem strcmp_eq_ne_overflow (buf : List Char) :
    ∀ (name : List Char) (n : Nat), strcmp_eq name buf ≠ .error (.buf_overflow n) := by
  induction buf with
  | nil => intro name n h; simp [strcmp_eq] at h
  | cons b bs ih =>
    intro name n
    rw [strcmp_eq]
    split
    · simp
    · split
      · simp
      · exact ih _ n

theorem check_event_find_ne_overflow (buf : List Char) (names : List (List Char)) :
    ∀ (j n : Nat), check_event_find buf names j ≠ .error (.buf_overflow n) := by
  induction names with
  | nil => intro j n h; simp [check_event_find] at h
  | cons name rest ih =>
    intro j n
    rw [check_event_find]
    split
    · rename_i e heq
      intro h
      exact strcmp_eq_ne_overflow buf name n (by rw [heq, Except.error.inj h])
    · simp
    · exact ih _ n

theorem set_specified_find_ne_overflow (D : Decls) (buf : List Char) (evnum : Nat)
    (names : List (List Char)) :
    ∀ (j : Nat) (attrs : List perf_event_attr_s) (n : Nat),
      set_specified_find D buf evnum names j attrs ≠ .error (.buf_overflow n) := by
  induction names with
  | nil => intro j attrs n h; simp [set_specified_find] at h
  | cons name rest ih =>
    intro j attrs n
    rw [set_specified_find]
    split
    · rename_i e heq
      intro h
      exact strcmp_eq_ne_overflow buf name n (by rw [heq, Except.error.inj h])
    · unfold set_attr
      split <;> simp
    · exact ih _ _ n

theorem strncpy_guarded (src : List Char) (n : Nat) (h : ¬ n > PERF_STAT_DEFAULT_MAX_EVSTR) :
    ∃ buf, strncpy (List.replicate PERF_STAT_DEFAULT_MAX_EVSTR NUL) src n = .ok buf := by
  unfold strncpy
  rw [if_pos (by simp only [List.length_replicate]; omega)]
  exact ⟨_, rfl⟩

theorem check_event_loop_ne_overflow (D : Decls) (evstr : List Char) :
    ∀ (k i evnum cnum n : Nat),
      check_event_loop D evstr k i evnum cnum ≠ .error (.buf_overflow n) := by
  intro k
  induction k with
  | zero => intro i evnum cnum n h; simp [check_event_loop] at h
  | succ k ih =>
    intro i evnum cnum n
    rw [check_event_loop]
    split
    · simp only
      split
      · simp
      · rename_i hg
        obtain ⟨buf, hbuf⟩ := strncpy_guarded (evstr.drop cnum) (i - cnum) hg
        rw [hbuf]
        simp only
        split
        · rename_i e heq
          intro h
          exact check_event_find_ne_overflow buf _ 0 n (by rw [heq, Except.error.inj h])
        · split
          · simp
          · exact ih _ _ _ n
    · exact ih _ _ _ n

theorem set_specified_loop_ne_overflow (D : Decls) (evstr : List Char) :
    ∀ (k i evnum cnum : Nat) (attrs : List perf_event_attr_s) (n : Nat),
      set_specified_loop D evstr k i evnum cnum attrs ≠ .error (.buf_overflow n) := by
  intro k
  induction k with
  | zero => intro i evnum cnum attrs n h; simp [set_specified_loop] at h
  | succ k ih =>
    intro i evnum cnum attrs n
    rw [set_specified_loop]
    split
    · simp only
      split
      · simp
      · rename_i hg
        obtain ⟨buf, hbuf⟩ := strncpy_guarded (evstr.drop cnum) (i - cnum) hg
        rw [hbuf]
        simp only
        split
        · rename_i e heq
          intro h
          exact set_specified_find_ne_overflow D buf _ _ 0 _ n (by rw [heq, Except.error.inj h])
        · exact ih _ _ _ _ n
    · exact ih _ _ _ _ n

/-- C3. With table names shorter than the 64-byte scratch buffer, an event
spec of any length that holds a comma-delimited token longer than the buffer
makes `check_event` return 0; and for every table, spec and descriptor array,
neither `check_event` nor `set_specified_attributes` ever runs a `strncpy` of
more than 64 bytes into the buffer (the `buf_overflow` fault never arises). -/
theorem long_token_rejected (D : Decls) (evstr : List Char) (attrs : List perf_event_attr_s) :
    ((∀ name ∈ D.evsel_hw_names, name.length < PERF_STAT_DEFAULT_MAX_EVSTR) →
      (∃ tok ∈ tokens evstr, tok.length > PERF_STAT_DEFAULT_MAX_EVSTR) →
      check_event D evstr = .ok 0) ∧
    (∀ n, check_event D evstr ≠ .error (.buf_overflow n)) ∧
    (∀ n, set_specified_attributes D evstr attrs ≠ .error (.buf_overflow n)) := by
  refine ⟨?_, ?_, ?_⟩
  · intro hshort hlong
    rw [check_event_eq]
    exact check_tokens_long D hshort _ 0 hlong
  · intro n
    exact check_event_loop_ne_overflow D evstr _ _ _ _ n
  · intro n
    exact set_specified_loop_ne_overflow D evstr _ _ _ _ _ n

/-- C3 at a spec with a 65-character token after a valid one. -/
theorem long_token_rejected_witness :
    (∀ name ∈ exDecls.evsel_hw_names, name.length < PERF_STAT_DEFAULT_MAX_EVSTR) ∧
    (∃ tok ∈ tokens exLongSpec, tok.length > PERF_STAT_DEFAULT_MAX_EVSTR) ∧
    check_event exDecls exLongSpec = .ok 0 :=
  ⟨by decide, by decide,
   (long_token_rejected exDecls exLongSpec []).1 (by decide) (by decide)⟩

/-! ## Registration -/

theorem find_agree (D : Decls) (buf : List Char) (evnum : Nat) (names : List (List Char)) :
    ∀ (j : Nat) (attrs : List perf_event_attr_s) (r : Nat),
      check_event_find buf names j = .ok r →
      set_specified_find D buf evnum names j attrs =
        if r < j + names.length then set_attr D attrs evnum r else .ok attrs := by
  induction names with
  | nil =>
    intro j attrs r h
    simp only [check_event_find, Except.ok.injEq] at h
    subst h
    simp [set_specified_find]
  | cons name rest ih =>
    intro j attrs r h
    rw [check_event_find] at h
    rw [set_specified_find]
    split at h
    · simp at h
    · simp only [Except.ok.injEq] at h
      subst h
      simp
    · rw [ih (j + 1) attrs r h]
      simp only [List.length_cons]
      have e : j + 1 + rest.length = j + (rest.length + 1) := by omega
      rw [e]

theorem set_tokens_of_check (D : Decls) :
    ∀ (ts : List (List Char)) (before mid rest : List perf_event_attr_s) (n : Nat),
      check_tokens D ts before.length = .ok n → n ≠ 0 → mid.length = ts.length →
      n = before.length + ts.length ∧
      ∃ filled : List perf_event_attr_s,
        filled.length = ts.length ∧
        (∀ a ∈ filled, ∃ j, j < D.PERF_COUNT_HW_MAX ∧ a = hw_attr D j) ∧
        set_tokens D ts before.length (before ++ mid ++ rest)
          = .ok (0, before ++ filled ++ rest) := by
  intro ts
  induction ts with
  | nil =>
    intro before mid rest n h _ hm
    have : mid = [] := List.length_eq_zero.mp hm
    subst this
    simp only [check_tokens, Except.ok.injEq] at h
    exact ⟨by simp [h], [], rfl, by simp, rfl⟩
  | cons t ts ih =>
    intro before mid rest n h hn hm
    cases mid with
    | nil => simp at hm
    | cons a mid1 =>
      rw [check_tokens_cons] at h
      split at h
      · simp only [Except.ok.injEq] at h
        exact absurd h.symm hn
      · rename_i hl
        split at h
        · simp at h
        · rename_i j hfind
          split at h
          · simp only [Except.ok.injEq] at h
            exact absurd h.symm hn
          · rename_i hj
            have hj2 : j < 0 + D.evsel_hw_names.length := by
              simp only [Decls.PERF_COUNT_HW_MAX] at hj
              omega
            have h2 := ih (before ++ [hw_attr D j]) mid1 rest n
              (by simpa using h) hn (by simpa using hm)
            obtain ⟨hlen, filled, hf1, hf2, hf3⟩ := h2
            refine ⟨by simp at hlen; simp; omega, hw_attr D j :: filled, by simp [hf1], ?_, ?_⟩
            · intro a1 ha1
              simp only [List.mem_cons] at ha1
              rcases ha1 with rfl | ha1
              · exact ⟨j, by simp only [Decls.PERF_COUNT_HW_MAX]; omega, rfl⟩
              · exact hf2 a1 ha1
            · rw [set_tokens_cons, if_neg hl, find_agree D _ _ _ 0 _ j hfind, if_pos hj2]
              simp only [List.append_assoc, List.cons_append]
              rw [set_attr_append]
              simp only [List.length_append, List.length_singleton, List.append_assoc,
                List.singleton_append, List.cons_append] at hf3
              exact hf3

theorem set_specified_of_check (D : Decls) (evstr : List Char) (n : Nat)
    (h : check_event D evstr = .ok n) (hn : n ≠ 0) :
    n = (tokens evstr).length ∧
    ∃ filled : List perf_event_attr_s,
      filled.length = n ∧
      (∀ a ∈ filled, ∃ j, j < D.PERF_COUNT_HW_MAX ∧ a = hw_attr D j) ∧
      set_specified_attributes D evstr (List.replicate n perf_event_attr_s.zero)
        = .ok (0, filled) := by
  rw [check_event_eq] at h
  have h1 := set_tokens_of_check D (tokens evstr) []
    (List.replicate (tokens evstr).length perf_event_attr_s.zero) [] n h hn (by simp)
  obtain ⟨hlen, filled, hf1, hf2, hf3⟩ := h1
  simp only [List.length_nil, Nat.zero_add] at hlen
  subst hlen
  refine ⟨rfl, filled, hf1, hf2, ?_⟩
  rw [set_specified_attributes_eq]
  simpa using hf3

theorem add_attrs_loop_spec (X : Env) (evnum : Nat) :
    ∀ (k i : Nat) (status : Option Int) (w : World),
      (add_attrs_loop X evnum k i status w).2.log =
        w.log ++ (List.range k).map
          (fun c => Call.evlist_add_attrs w.evlist.attrs evnum ((i + c : Nat) : Int)) ∧
      (add_attrs_loop X evnum k i status w).2.evlist =
        { w.evlist with entries := (add_attrs_loop X evnum k i status w).2.evlist.entries } ∧
      (0 < k → ∃ st, (add_attrs_loop X evnum k i status w).1 = some st) ∧
      (k = 0 → (add_attrs_loop X evnum k i status w).1 = status) := by
  intro k
  induction k with
  | zero =>
    intro i status w
    simp [add_attrs_loop]
  | succ k ih =>
    intro i status w
    rw [add_attrs_loop]
    obtain ⟨h1, h2, h3, h4⟩ := ih (i + 1)
      (some (X.evlist_add_attrs w.evlist.entries w.evlist.attrs evnum i).1)
      { evlist := { w.evlist with
          entries := (X.evlist_add_attrs w.evlist.entries w.evlist.attrs evnum i).2 },
        log := w.log ++ [Call.evlist_add_attrs w.evlist.attrs evnum i] }
    refine ⟨?_, ?_, ?_, ?_⟩
    · rw [h1, List.range_succ_eq_map]
      simp only [List.append_assoc, List.singleton_append, List.map_cons, List.map_map,
        Nat.add_zero]
      congr 2
      apply List.map_congr_left
      intro c _
      simp only [Function.comp, Nat.succ_eq_add_one]
      congr 2
      omega
    · rw [h2]
    · intro _
      rcases Nat.eq_zero_or_pos k with hk | hk
      · exact ⟨_, h4 hk⟩
      · exact h3 hk
    · intro hk
      omega

theorem add_attrs_spec (D : Decls) (X : Env) (evnum : Nat) (status : Option Int) (w : World)
    (h : w.evlist.system_wide = true → 0 < D.CONFIG_SMP_NCPUS ∨ status.isSome = true) :
    ∃ (st : Int) (w1 : World), add_attrs D X evnum status w = .ok (st, w1) ∧
      w1.log = w.log ++
        add_attrs_calls D w.evlist.system_wide w.evlist.cpu w.evlist.attrs evnum ∧
      w1.evlist = { w.evlist with entries := w1.evlist.entries } := by
  unfold add_attrs add_attrs_calls
  by_cases hs : w.evlist.system_wide = true
  · obtain ⟨h1, h2, h3, h4⟩ := add_attrs_loop_spec X evnum D.CONFIG_SMP_NCPUS 0 status w
    rw [if_pos hs, if_pos hs]
    have hsome : ∃ st, (add_attrs_loop X evnum D.CONFIG_SMP_NCPUS 0 status w).1 = some st := by
      rcases Nat.eq_zero_or_pos D.CONFIG_SMP_NCPUS with hk | hk
      · rw [h4 hk]
        rcases h hs with h5 | h5
        · omega
        · exact Option.isSome_iff_exists.mp h5
      · exact h3 hk
    obtain ⟨st, hst⟩ := hsome
    refine ⟨st, (add_attrs_loop X evnum D.CONFIG_SMP_NCPUS 0 status w).2, ?_, ?_, h2⟩
    · generalize add_attrs_loop X evnum D.CONFIG_SMP_NCPUS 0 status w = r at hst
      obtain ⟨r1, r2⟩ := r
      simp only at hst
      subst hst
      rfl
    · simpa using h1
  · rw [if_neg hs, if_neg hs]
    exact ⟨_, _, rfl, rfl, rfl⟩

theorem set_default_loop_spec (D : Decls) :
    ∀ (cm cb : List Nat) (before mid : List perf_event_attr_s),
      mid.length = cm.length → before.length = cb.length →
      set_default_loop D (cb ++ cm) cm.length cb.length (before ++ mid)
        = .ok (before ++ cm.map (hw_attr D)) := by
  intro cm
  induction cm with
  | nil =>
    intro cb before mid hm _
    have : mid = [] := List.length_eq_zero.mp hm
    subst this
    simp [set_default_loop]
  | cons c cm ih =>
    intro cb before mid hm hb
    cases mid with
    | nil => simp at hm
    | cons a mid1 =>
      have hget : (cb ++ c :: cm)[cb.length]? = some c := by
        rw [List.getElem?_append_right (Nat.le_refl _)]
        simp
      rw [List.length_cons, set_default_loop, hget]
      simp only
      rw [← hb, set_attr_append]
      simp only
      have := ih (cb ++ [c]) (before ++ [hw_attr D c]) mid1 (by simpa using hm)
        (by simp [hb])
      simp only [List.length_append, List.length_singleton, List.append_assoc,
        List.singleton_append] at this
      rw [hb, this]
      simp

theorem set_default_attributes_spec (D : Decls) (config : List Nat) :
    set_default_attributes D config config.length
        (List.replicate config.length perf_event_attr_s.zero)
      = .ok (0, config.map (hw_attr D)) := by
  have := set_default_loop_spec D config [] []
    (List.replicate config.length perf_event_attr_s.zero) (by simp) rfl
  simp only [List.nil_append, List.length_nil] at this
  simp only [set_default_attributes, this]

theorem add_default_attributes_spec (D : Decls) (X : Env) (w : World)
    (hz : X.zalloc (D.default_hw_config.length * D.sizeof_attr) = true) :
    ∃ (st : Int) (w1 : World), add_default_attributes D X w = .ok (st, w1) ∧
      w1.log = w.log ++ Call.zalloc (D.default_hw_config.length * D.sizeof_attr) ::
        add_attrs_calls D w.evlist.system_wide w.evlist.cpu
          (some (D.default_hw_config.map (hw_attr D))) D.default_hw_config.length ∧
      w1.evlist = { w.evlist with
        attrs := some (D.default_hw_config.map (hw_attr D)),
        entries := w1.evlist.entries } := by
  obtain ⟨st, w1, h1, h2, h3⟩ := add_attrs_spec D X D.default_hw_config.length (some 0)
    { evlist := { w.evlist with attrs := some (D.default_hw_config.map (hw_attr D)) },
      log := w.log ++ [Call.zalloc (D.default_hw_config.length * D.sizeof_attr)] }
    (fun _ => Or.inr rfl)
  refine ⟨st, w1, ?_, ?_, h3⟩
  · simp only [add_default_attributes, hz, set_default_attributes_spec, World.call]
    exact h1
  · rw [h2]
    simp

theorem add_specified_attributes_spec (D : Decls) (X : Env) (w : World) (evstr : List Char)
    (n : Nat) (hc : check_event D evstr = .ok n) (hn : n ≠ 0)
    (hz : X.zalloc (n * D.sizeof_attr) = true)
    (hcpu : w.evlist.system_wide = true → 0 < D.CONFIG_SMP_NCPUS) :
    ∃ (st : Int) (w1 : World) (filled : List perf_event_attr_s),
      add_specified_attributes D X w (some evstr) = .ok (st, w1) ∧
      set_specified_attributes D evstr (List.replicate n perf_event_attr_s.zero)
        = .ok (0, filled) ∧
      filled.length = n ∧
      w1.log = w.log ++ Call.zalloc (n * D.sizeof_attr) ::
        add_attrs_calls D w.evlist.system_wide w.evlist.cpu (some filled) n ∧
      w1.evlist = { w.evlist with attrs := some filled, entries := w1.evlist.entries } := by
  obtain ⟨_, filled, hf1, _, hf3⟩ := set_specified_of_check D evstr n hc hn
  obtain ⟨st, w1, h1, h2, h3⟩ := add_attrs_spec D X n none
    { evlist := { w.evlist with attrs := some filled },
      log := w.log ++ [Call.zalloc (n * D.sizeof_attr)] }
    (fun h => Or.inl (hcpu h))
  refine ⟨st, w1, filled, ?_, hf3, hf1, ?_, h3⟩
  · simp only [add_specified_attributes, hc, hn, if_false, hz, hf3, World.call]
    exact h1
  · rw [h2]
    simp

theorem add_attrs_calls_registration (D : Decls) (sw : Bool) (cpu : Int)
    (attrs : Option (List perf_event_attr_s)) (evnum : Nat) :
    ∀ c ∈ add_attrs_calls D sw cpu attrs evnum, c.is_add_attrs = true := by
  intro c hc
  unfold add_attrs_calls at hc
  split at hc
  · simp only [List.mem_map] at hc
    obtain ⟨i, _, rfl⟩ := hc
    rfl
  · simp only [List.mem_singleton] at hc
    subst hc
    rfl

theorem is_registration_of_add_attrs (c : Call) (h : c.is_add_attrs = true) :
    c.is_registration = true := by
  cases c <;> simp_all [Call.is_add_attrs, Call.is_registration]

theorem not_add_attrs_of_session (c : Call) (h : c.is_session = true) :
    c.is_add_attrs = false := by
  cases c <;> simp_all [Call.is_add_attrs, Call.is_session]

theorem add_attrs_frame (D : Decls) (X : Env) (evnum : Nat) (status : Option Int)
    (w w1 : World) (st : Int) (h : add_attrs D X evnum status w = .ok (st, w1)) :
    w1.log = w.log ++
      add_attrs_calls D w.evlist.system_wide w.evlist.cpu w.evlist.attrs evnum ∧
    w1.evlist = { w.evlist with entries := w1.evlist.entries } := by
  unfold add_attrs at h
  unfold add_attrs_calls
  by_cases hs : w.evlist.system_wide = true
  · obtain ⟨h1, h2, _, _⟩ := add_attrs_loop_spec X evnum D.CONFIG_SMP_NCPUS 0 status w
    rw [if_pos hs] at h
    rw [if_pos hs]
    generalize add_attrs_loop X evnum D.CONFIG_SMP_NCPUS 0 status w = r at h h1 h2
    obtain ⟨r1, r2⟩ := r
    cases r1 with
    | none => simp at h
    | some s1 =>
      simp only [Except.ok.injEq, Prod.mk.injEq] at h
      obtain ⟨_, rfl⟩ := h
      exact ⟨by simpa using h1, h2⟩
  · rw [if_neg hs] at h
    rw [if_neg hs]
    simp only [Except.ok.injEq, Prod.mk.injEq] at h
    obtain ⟨_, rfl⟩ := h
    exact ⟨rfl, rfl⟩

theorem add_specified_attributes_frame (D : Decls) (X : Env) (w w1 : World)
    (evstr : Option (List Char)) (st : Int)
    (h : add_specified_attributes D X w evstr = .ok (st, w1)) :
    ∃ calls : List Call, w1.log = w.log ++ calls ∧
      (∀ c ∈ calls, c.is_registration = true) ∧
      w1.evlist = { w.evlist with attrs := w1.evlist.attrs, entries := w1.evlist.entries } := by
  unfold add_specified_attributes at h
  split at h
  · simp only [Except.ok.injEq, Prod.mk.injEq] at h
    obtain ⟨_, rfl⟩ := h
    exact ⟨[], by simp, by simp, rfl⟩
  · split at h
    · simp at h
    · split at h
      · simp only [Except.ok.injEq, Prod.mk.injEq] at h
        obtain ⟨_, rfl⟩ := h
        exact ⟨[], by simp, by simp, rfl⟩
      · split at h
        · simp only [Except.ok.injEq, Prod.mk.injEq] at h
          obtain ⟨_, rfl⟩ := h
          refine ⟨[Call.zalloc _], rfl, ?_, rfl⟩
          intro c hc
          simp only [List.mem_singleton] at hc
          subst hc
          rfl
        · split at h
          · simp at h
          · obtain ⟨h1, h2⟩ := add_attrs_frame D X _ _ _ _ _ h
            simp only [World.call, List.append_assoc, List.singleton_append] at h1
            refine ⟨_, h1, ?_, ?_⟩
            · intro c hc
              simp only [List.mem_cons] at hc
              rcases hc with rfl | hc
              · rfl
              · exact is_registration_of_add_attrs c
                  (add_attrs_calls_registration D _ _ _ _ c hc)
            · rw [h2]
              rfl

theorem add_default_attributes_frame (D : Decls) (X : Env) (w w1 : World) (st : Int)
    (h : add_default_attributes D X w = .ok (st, w1)) :
    ∃ calls : List Call, w1.log = w.log ++ calls ∧
      (∀ c ∈ calls, c.is_registration = true) ∧
      w1.evlist = { w.evlist with attrs := w1.evlist.attrs, entries := w1.evlist.entries } := by
  unfold add_default_attributes at h
  simp only at h
  split at h
  · simp only [Except.ok.injEq, Prod.mk.injEq] at h
    obtain ⟨_, rfl⟩ := h
    refine ⟨[Call.zalloc _], rfl, ?_, rfl⟩
    intro c hc
    simp only [List.mem_singleton] at hc
    subst hc
    rfl
  · split at h
    · simp at h
    · obtain ⟨h1, h2⟩ := add_attrs_frame D X _ _ _ _ _ h
      simp only [World.call, List.append_assoc, List.singleton_append] at h1
      refine ⟨_, h1, ?_, ?_⟩
      · intro c hc
        simp only [List.mem_cons] at hc
        rcases hc with rfl | hc
        · rfl
        · exact is_registration_of_add_attrs c
            (add_attrs_calls_registration D _ _ _ _ c hc)
      · rw [h2]
        rfl

theorem run_perf_stat_register_frame (D : Decls) (X : Env) (w w1 : World)
    (stat_args : stat_args_s) (st : Int)
    (h : run_perf_stat_register D X w stat_args = .ok (st, w1)) :
    ∃ calls : List Call, w1.log = w.log ++ calls ∧
      (∀ c ∈ calls, c.is_registration = true) ∧
      w1.evlist = { w.evlist with
        defult_attrs := w1.evlist.defult_attrs, attrs := w1.evlist.attrs,
        entries := w1.evlist.entries } := by
  unfold run_perf_stat_register at h
  split at h
  · simp only at h
    split at h
    · simp at h
    · rename_i r hr
      obtain ⟨r1, r2⟩ := r
      obtain ⟨calls, h1, h2, h3⟩ := add_specified_attributes_frame D X _ _ _ _ hr
      split at h
      · simp only [Except.ok.injEq, Prod.mk.injEq] at h
        obtain ⟨_, rfl⟩ := h
        refine ⟨calls ++ [Call.stat_cmds_help], ?_, ?_, ?_⟩
        · simp [World.call, h1]
        · intro c hc
          simp only [List.mem_append, List.mem_singleton] at hc
          rcases hc with hc | rfl
          · exact h2 c hc
          · rfl
        · simp only [World.call]
          rw [h3]
      · simp only [Except.ok.injEq, Prod.mk.injEq] at h
        obtain ⟨_, rfl⟩ := h
        refine ⟨calls, h1, h2, ?_⟩
        rw [h3]
  · obtain ⟨calls, h1, h2, h3⟩ := add_default_attributes_frame D X _ _ _ h
    refine ⟨calls, h1, h2, ?_⟩
    rw [h3]

/-! ## The session -/

theorem evlist_for_each_evsel_log (func : evsel_s → Int) (mk : evsel_s → Call) :
    ∀ (es : List evsel_s) (status : Int) (log : List Call),
      (evlist_for_each_evsel func mk es status log).2 = log ++ es.map mk := by
  intro es
  induction es with
  | nil => intro status log; simp [evlist_for_each_evsel]
  | cons e es ih =>
    intro status log
    rw [evlist_for_each_evsel, ih]
    simp

theorem perf_stat_handle_finish_world (X : Env) (status : Int) (w : World) :
    (perf_stat_handle_finish X status w).2 =
      { w with log := w.log ++ w.evlist.entries.map Call.evsel_read_counter
          ++ w.evlist.entries.map Call.evsel_count_end } := by
  simp only [perf_stat_handle_finish, evlist_for_each_evsel_log]

theorem perf_stat_handle_failure (X : Env) (w : World) (cmd : List Char)
    (hc : w.evlist.cmd_str = some cmd) (hs : X.system cmd ≠ 0) :
    perf_stat_handle X w =
      (X.system cmd,
       { w with log := w.log ++ w.evlist.entries.map Call.evsel_count_start
          ++ [Call.system cmd] }) := by
  simp only [perf_stat_handle, hc, evlist_for_each_evsel_log, hs, ne_eq, not_false_eq_true,
    if_true]

theorem perf_stat_handle_success (X : Env) (w : World) (cmd : List Char)
    (hc : w.evlist.cmd_str = some cmd) (hs : X.system cmd = 0) :
    (perf_stat_handle X w).2 =
      { w with log := w.log ++ w.evlist.entries.map Call.evsel_count_start
          ++ [Call.system cmd] ++ w.evlist.entries.map Call.evsel_read_counter
          ++ w.evlist.entries.map Call.evsel_count_end } := by
  simp only [perf_stat_handle, hc, evlist_for_each_evsel_log, hs, ne_eq, not_true_eq_false,
    if_false, perf_stat_handle_finish_world]

theorem perf_stat_handle_duration (X : Env) (w : World) (hc : w.evlist.cmd_str = none) :
    (perf_stat_handle X w).2 =
      { evlist := { w.evlist with sec := PERF_STAT_DEFAULT_RUN_TIME },
        log := w.log ++ w.evlist.entries.map Call.evsel_count_start
          ++ [Call.sleep PERF_STAT_DEFAULT_RUN_TIME]
          ++ w.evlist.entries.map Call.evsel_read_counter
          ++ w.evlist.entries.map Call.evsel_count_end } := by
  simp only [perf_stat_handle, hc, evlist_for_each_evsel_log, perf_stat_handle_finish_world]

theorem handle_calls_session (X : Env) (evlist : evlist_s) :
    ∀ c ∈ handle_calls X evlist, c.is_session = true := by
  intro c hc
  unfold handle_calls at hc
  simp only [List.mem_append, List.mem_map] at hc
  rcases hc with ⟨e, _, rfl⟩ | hc
  · rfl
  · split at hc
    · simp only [List.mem_cons] at hc
      rcases hc with rfl | hc
      · rfl
      · split at hc
        · simp at hc
        · simp only [List.mem_append, List.mem_map] at hc
          rcases hc with ⟨e, _, rfl⟩ | ⟨e, _, rfl⟩ <;> rfl
    · simp only [List.mem_cons, List.mem_append, List.mem_map] at hc
      rcases hc with rfl | ⟨e, _, rfl⟩ | ⟨e, _, rfl⟩ <;> rfl

theorem perf_stat_handle_frame (X : Env) (w : World) :
    (perf_stat_handle X w).2.log = w.log ++ handle_calls X w.evlist ∧
    (perf_stat_handle X w).2.evlist =
      { w.evlist with sec := (perf_stat_handle X w).2.evlist.sec } := by
  cases hc : w.evlist.cmd_str with
  | none =>
    refine ⟨?_, ?_⟩
    · rw [perf_stat_handle_duration X w hc]
      simp [handle_calls, hc]
    · rw [perf_stat_handle_duration X w hc]
  | some cmd =>
    by_cases hs : X.system cmd = 0
    · refine ⟨?_, ?_⟩
      · rw [perf_stat_handle_success X w cmd hc hs]
        simp [handle_calls, hc, hs]
      · rw [perf_stat_handle_success X w cmd hc hs]
    · refine ⟨?_, ?_⟩
      · rw [perf_stat_handle_failure X w cmd hc hs]
        simp [handle_calls, hc, hs]
      · rw [perf_stat_handle_failure X w cmd hc hs]

theorem run_perf_stat_session_frame (X : Env) (w : World) :
    ∃ calls : List Call, (run_perf_stat_session X w).2.log = w.log ++ calls ∧
      (∀ c ∈ calls, c.is_session = true) ∧
      (run_perf_stat_session X w).2.evlist =
        { w.evlist with sec := (run_perf_stat_session X w).2.evlist.sec } := by
  obtain ⟨h1, h2⟩ := perf_stat_handle_frame X (w.call Call.clock_gettime)
  unfold run_perf_stat_session
  simp only
  split
  · refine ⟨Call.clock_gettime :: handle_calls X w.evlist, ?_, ?_, ?_⟩
    · rw [h1]
      simp [World.call]
    · intro c hc
      simp only [List.mem_cons] at hc
      rcases hc with rfl | hc
      · rfl
      · exact handle_calls_session X _ c hc
    · rw [h2]
      rfl
  · refine ⟨Call.clock_gettime :: handle_calls X w.evlist ++
      [Call.clock_gettime, Call.print_counters (run_time X.start_time X.end_time)], ?_, ?_, ?_⟩
    · show (perf_stat_handle X (w.call Call.clock_gettime)).2.log ++ [Call.clock_gettime]
        ++ [Call.print_counters (run_time X.start_time X.end_time)] = _
      rw [h1]
      simp [World.call]
    · intro c hc
      simp only [List.mem_cons, List.mem_append, List.mem_singleton, List.not_mem_nil,
        or_false] at hc
      rcases hc with (rfl | hc) | rfl | rfl
      · rfl
      · exact handle_calls_session X _ c hc
      · rfl
      · rfl
    · show (perf_stat_handle X (w.call Call.clock_gettime)).2.evlist = _
      rw [h2]
      rfl

theorem run_perf_stat_frame (D : Decls) (X : Env) (w w1 : World) (stat_args : stat_args_s)
    (st : Int) (h : run_perf_stat D X w stat_args = .ok (st, w1)) :
    ∃ calls : List Call, w1.log = w.log ++ calls ∧
      ∀ c ∈ calls, c.is_registration = true ∨ c.is_session = true := by
  unfold run_perf_stat at h
  split at h
  · simp at h
  · rename_i w0 h0
    have hlog0 : w0.log = w.log := by
      unfold run_perf_stat_cmd at h0
      simp only at h0
      split at h0
      · split at h0
        · simp at h0
        · simp only [Except.ok.injEq] at h0
          subst h0
          rfl
      · simp only [Except.ok.injEq] at h0
        subst h0
        rfl
    split at h
    · simp at h
    · rename_i r hr
      obtain ⟨r1, r2⟩ := r
      obtain ⟨calls, h1, h2, _⟩ := run_perf_stat_register_frame D X _ _ _ _ hr
      split at h
      · simp only [Except.ok.injEq, Prod.mk.injEq] at h
        obtain ⟨_, rfl⟩ := h
        exact ⟨calls, by rw [h1, hlog0], fun c hc => Or.inl (h2 c hc)⟩
      · obtain ⟨calls2, h3, h4, _⟩ := run_perf_stat_session_frame X r2
        simp only [Except.ok.injEq] at h
        have hw : (run_perf_stat_session X r2).2 = w1 := by rw [h]
        rw [hw] at h3
        refine ⟨calls ++ calls2, by rw [h3, h1, hlog0, List.append_assoc], ?_⟩
        intro c hc
        simp only [List.mem_append] at hc
        rcases hc with hc | hc
        · exact Or.inl (h2 c hc)
        · exact Or.inr (h4 c hc)

/-! ## C5: one registration per target -/

/-- C5. After a successful validation and allocation in
`add_specified_attributes`, and after a successful allocation in
`add_default_attributes`, the calls made are the `zalloc` followed, in
system-wide mode, by exactly `CONFIG_SMP_NCPUS` calls of `evlist_add_attrs`,
one for each CPU index `0 .. CONFIG_SMP_NCPUS - 1` in order, and otherwise by
exactly one call with `cpu = evlist->cpu`; every call gets the same descriptor
array (the one stored in `evlist->attrs`) and the same event count. -/
theorem registration_per_target (D : Decls) (X : Env) (w : World) (evstr : List Char) (n : Nat) :
    (check_event D evstr = .ok n → n ≠ 0 → X.zalloc (n * D.sizeof_attr) = true →
      (w.evlist.system_wide = true → 0 < D.CONFIG_SMP_NCPUS) →
      ∃ (st : Int) (w1 : World) (descr : List perf_event_attr_s),
        add_specified_attributes D X w (some evstr) = .ok (st, w1) ∧
        w1.evlist.attrs = some descr ∧ descr.length = n ∧
        w1.log = w.log ++ Call.zalloc (n * D.sizeof_attr) ::
          (if w.evlist.system_wide then
            (List.range D.CONFIG_SMP_NCPUS).map
              (fun (i : Nat) => Call.evlist_add_attrs (some descr) n i)
           else [Call.evlist_add_attrs (some descr) n w.evlist.cpu])) ∧
    (X.zalloc (D.default_hw_config.length * D.sizeof_attr) = true →
      ∃ (st : Int) (w1 : World) (descr : List perf_event_attr_s),
        add_default_attributes D X w = .ok (st, w1) ∧
        w1.evlist.attrs = some descr ∧ descr.length = D.default_hw_config.length ∧
        w1.log = w.log ++ Call.zalloc (D.default_hw_config.length * D.sizeof_attr) ::
          (if w.evlist.system_wide then
            (List.range D.CONFIG_SMP_NCPUS).map
              (fun (i : Nat) =>
                Call.evlist_add_attrs (some descr) D.default_hw_config.length i)
           else
            [Call.evlist_add_attrs (some descr) D.default_hw_config.length w.evlist.cpu])) := by
  constructor
  · intro hc hn hz hcpu
    obtain ⟨st, w1, filled, h1, _, h3, h4, h5⟩ :=
      add_specified_attributes_spec D X w evstr n hc hn hz hcpu
    refine ⟨st, w1, filled, h1, by rw [h5], h3, ?_⟩
    rw [h4]
    rfl
  · intro hz
    obtain ⟨st, w1, h1, h4, h5⟩ := add_default_attributes_spec D X w hz
    refine ⟨st, w1, _, h1, by rw [h5], by simp, ?_⟩
    rw [h4]
    rfl

/-- C5 in system-wide mode on two CPUs, for the spec `"cycles"` and for the
default events. -/
theorem registration_per_target_witness :
    (∃ (st : Int) (w1 : World) (descr : List perf_event_attr_s),
      add_specified_attributes exDecls exEnv exWideWorld (some "cycles".toList) = .ok (st, w1) ∧
      w1.evlist.attrs = some descr ∧ descr.length = 1 ∧
      w1.log = exWideWorld.log ++ Call.zalloc (1 * exDecls.sizeof_attr) ::
        (if exWideWorld.evlist.system_wide then
          (List.range exDecls.CONFIG_SMP_NCPUS).map
            (fun (i : Nat) => Call.evlist_add_attrs (some descr) 1 i)
         else [Call.evlist_add_attrs (some descr) 1 exWideWorld.evlist.cpu])) ∧
    (∃ (st : Int) (w1 : World) (descr : List perf_event_attr_s),
      add_default_attributes exDecls exEnv exWideWorld = .ok (st, w1) ∧
      w1.evlist.attrs = some descr ∧ descr.length = exDecls.default_hw_config.length ∧
      w1.log = exWideWorld.log ++
        Call.zalloc (exDecls.default_hw_config.length * exDecls.sizeof_attr) ::
        (if exWideWorld.evlist.system_wide then
          (List.range exDecls.CONFIG_SMP_NCPUS).map
            (fun (i : Nat) =>
              Call.evlist_add_attrs (some descr) exDecls.default_hw_config.length i)
         else
          [Call.evlist_add_attrs (some descr) exDecls.default_hw_config.length
            exWideWorld.evlist.cpu])) :=
  ⟨(registration_per_target exDecls exEnv exWideWorld "cycles".toList 1).1
      (by decide) (by decide) rfl (fun _ => by decide),
   (registration_per_target exDecls exEnv exWideWorld "cycles".toList 1).2 rfl⟩

/-! ## C4: the default events -/

theorem filter_add_attrs_registration (D : Decls) (sw : Bool) (cpu : Int)
    (attrs : Option (List perf_event_attr_s)) (evnum : Nat) (nbytes : Nat) :
    (Call.zalloc nbytes :: add_attrs_calls D sw cpu attrs evnum).filter Call.is_add_attrs
      = add_attrs_calls D sw cpu attrs evnum := by
  rw [List.filter_cons_of_neg (by simp [Call.is_add_attrs])]
  exact List.filter_eq_self.mpr (add_attrs_calls_registration D sw cpu attrs evnum)

theorem filter_add_attrs_session (calls : List Call) (h : ∀ c ∈ calls, c.is_session = true) :
    calls.filter Call.is_add_attrs = [] := by
  rw [List.filter_eq_nil_iff]
  intro c hc
  rw [not_add_attrs_of_session c (h c hc)]
  simp

/-- C4. Without an event spec (`stat_args->events` is NULL) `run_perf_stat`
takes the default path: `set_default_attributes` fills an array of exactly as
many descriptors as `default_hw_config` has entries, entry `i` being
`type = PERF_TYPE_HARDWARE`, `config = default_hw_config[i]`, `disabled = 1`,
`inherit = 1`; when the allocation succeeds that array is `evlist->attrs`, and
every `evlist_add_attrs` call of the run gets that array and that length as its
count. -/
theorem default_path (D : Decls) (X : Env) (w : World) (stat_args : stat_args_s)
    (cmd_str : List Char)
    (hev : stat_args.events = none)
    (hcmd : cmd_str_loop stat_args.cmd_args [] = .ok cmd_str)
    (hz : X.zalloc (D.default_hw_config.length * D.sizeof_attr) = true) :
    set_default_attributes D D.default_hw_config D.default_hw_config.length
        (List.replicate D.default_hw_config.length perf_event_attr_s.zero)
      = .ok (0, D.default_hw_config.map (hw_attr D)) ∧
    (D.default_hw_config.map (hw_attr D)).length = D.default_hw_config.length ∧
    (∀ (i c : Nat), D.default_hw_config[i]? = some c →
      (D.default_hw_config.map (hw_attr D))[i]? = some
        { type := D.PERF_TYPE_HARDWARE, size := D.sizeof_attr, config := c,
          disabled := 1, inherit := 1 }) ∧
    ∃ (st : Int) (w1 : World), run_perf_stat D X w stat_args = .ok (st, w1) ∧
      w1.evlist.defult_attrs = true ∧
      w1.evlist.attrs = some (D.default_hw_config.map (hw_attr D)) ∧
      w1.log.filter Call.is_add_attrs = w.log.filter Call.is_add_attrs ++
        (if w.evlist.system_wide then
          (List.range D.CONFIG_SMP_NCPUS).map
            (fun (i : Nat) => Call.evlist_add_attrs
              (some (D.default_hw_config.map (hw_attr D))) D.default_hw_config.length i)
         else
          [Call.evlist_add_attrs (some (D.default_hw_config.map (hw_attr D)))
            D.default_hw_config.length stat_args.cpu]) := by
  refine ⟨set_default_attributes_spec D _, by simp, ?_, ?_⟩
  · intro i c hi
    rw [List.getElem?_map, hi]
    rfl
  · obtain ⟨st1, wr, h1, h2, h3⟩ := add_default_attributes_spec D X
      { evlist :=
          { w.evlist with
            cpu := stat_args.cpu, pid := stat_args.pid,
            cmd_str := if stat_args.cmd_nr > 0 then some cmd_str else w.evlist.cmd_str,
            defult_attrs := true },
        log := w.log } hz
    have hrun : run_perf_stat D X w stat_args =
        if st1 ≠ 0 then .ok (st1, wr) else .ok (run_perf_stat_session X wr) := by
      simp only [run_perf_stat, run_perf_stat_cmd_of_fit w stat_args cmd_str hcmd,
        run_perf_stat_register, hev]
      rw [h1]
    have hcalls : add_attrs_calls D w.evlist.system_wide stat_args.cpu
          (some (D.default_hw_config.map (hw_attr D))) D.default_hw_config.length =
        (if w.evlist.system_wide then
          (List.range D.CONFIG_SMP_NCPUS).map
            (fun (i : Nat) => Call.evlist_add_attrs
              (some (D.default_hw_config.map (hw_attr D))) D.default_hw_config.length i)
         else
          [Call.evlist_add_attrs (some (D.default_hw_config.map (hw_attr D)))
            D.default_hw_config.length stat_args.cpu]) := rfl
    have hfr : wr.log.filter Call.is_add_attrs = w.log.filter Call.is_add_attrs ++
        add_attrs_calls D w.evlist.system_wide stat_args.cpu
          (some (D.default_hw_config.map (hw_attr D))) D.default_hw_config.length := by
      rw [h2, List.filter_append, filter_add_attrs_registration]
    by_cases hst : st1 ≠ 0
    · rw [if_pos hst] at hrun
      refine ⟨st1, wr, hrun, by rw [h3], by rw [h3], ?_⟩
      rw [hfr, hcalls]
    · rw [if_neg hst] at hrun
      obtain ⟨calls, h4, h5, h6⟩ := run_perf_stat_session_frame X wr
      refine ⟨(run_perf_stat_session X wr).1, (run_perf_stat_session X wr).2, hrun,
        by rw [h6, h3], by rw [h6, h3], ?_⟩
      rw [h4, List.filter_append, filter_add_attrs_session calls h5, List.append_nil, hfr,
        hcalls]

/-- C4 in system-wide mode on two CPUs with three default events. -/
theorem default_path_witness :
    (run_perf_stat exDecls exEnv exWideWorld
        { type := 0, cpu := -1, pid := -1, cmd_args := [], events := none }).toOption.map
      (fun r => (r.2.evlist.attrs, r.2.log.filter Call.is_add_attrs))
      = some (some (exDecls.default_hw_config.map (hw_attr exDecls)),
          [Call.evlist_add_attrs (some (exDecls.default_hw_config.map (hw_attr exDecls))) 3 0,
           Call.evlist_add_attrs (some (exDecls.default_hw_config.map (hw_attr exDecls))) 3 1]) := by
  obtain ⟨st, w1, h1, _, h3, h4⟩ :=
    (default_path exDecls exEnv exWideWorld
      { type := 0, cpu := -1, pid := -1, cmd_args := [], events := none } [] rfl rfl rfl).2.2.2
  rw [h1]
  simp only [Except.toOption, Option.map_some', h3, h4]
  rfl

/-! ## C6: a registration failure on one CPU -/

/-- C6, the code at a failing input: on two CPUs in system-wide mode, with the
registry failing (`-ENOMEM`) on CPU 0 and succeeding on CPU 1, both
`add_default_attributes` and `add_specified_attributes` return 0, the status of
the last CPU, and `run_perf_stat` goes on to start the counters, run the
session and print the report. -/
theorem registration_failure_overwritten :
    (exFailEnv.evlist_add_attrs [] (some (exDecls.default_hw_config.map (hw_attr exDecls))) 3
      0).1 = -ENOMEM ∧
    (add_default_attributes exDecls exFailEnv exWideWorld).toOption.map Prod.fst = some 0 ∧
    (add_specified_attributes exDecls exFailEnv exWideWorld
      (some "cycles".toList)).toOption.map Prod.fst = some 0 ∧
    (run_perf_stat exDecls exFailEnv exWideWorld exArgs).toOption.map
        (fun r => (r.1, r.2.log))
      = some (0,
          [Call.evlist_new, Call.zalloc 384,
           Call.evlist_add_attrs (some (exDecls.default_hw_config.map (hw_attr exDecls))) 3 0,
           Call.evlist_add_attrs (some (exDecls.default_hw_config.map (hw_attr exDecls))) 3 1,
           Call.clock_gettime,
           Call.evsel_count_start { handle := 100 }, Call.evsel_count_start { handle := 101 },
           Call.evsel_count_start { handle := 102 },
           Call.sleep 5,
           Call.evsel_read_counter { handle := 100 }, Call.evsel_read_counter { handle := 101 },
           Call.evsel_read_counter { handle := 102 },
           Call.evsel_count_end { handle := 100 }, Call.evsel_count_end { handle := 101 },
           Call.evsel_count_end { handle := 102 },
           Call.clock_gettime,
           Call.print_counters { tv_sec := 5, tv_nsec := -800000000 }]) := by
  decide

/-! ## C7: a failing workload command -/

/-- C7. When the workload command returns a non-zero status `s`:
`perf_stat_handle` returns exactly `s` after the start pass and the `system`
call, without the read pass or the count-end pass; `run_perf_stat` (the command
line fits `cmd_str` and the registration returned 0) returns exactly `s`, the
calls of the whole run being registration calls, the first `clock_gettime`,
the start pass and the `system` call, so `print_counters` is not called; and
`cmd_stat` returns exactly `s`. -/
theorem workload_failure (D : Decls) (X : Env) (w w0 wr : World) (stat_args : stat_args_s)
    (cmd : List Char) (s : Int)
    (h0 : run_perf_stat_cmd w stat_args = .ok w0)
    (hc : w0.evlist.cmd_str = some cmd)
    (hreg : run_perf_stat_register D X w0 stat_args = .ok (0, wr))
    (hs : X.system cmd = s) (hs0 : s ≠ 0) :
    (∀ wh : World, wh.evlist.cmd_str = some cmd →
      perf_stat_handle X wh =
        (s, { wh with log := wh.log ++ wh.evlist.entries.map Call.evsel_count_start
                ++ [Call.system cmd] })) ∧
    run_perf_stat D X w stat_args =
      .ok (s, { wr with log := wr.log ++ [Call.clock_gettime]
                  ++ wr.evlist.entries.map Call.evsel_count_start ++ [Call.system cmd] }) ∧
    (∃ reg : List Call, wr.log = w.log ++ reg ∧ ∀ c ∈ reg, c.is_registration = true) ∧
    (∀ (argv : List (List Char)) (evlist : evlist_s),
      X.parse_stat_options argv = (0, stat_args) → stat_args.type ≠ D.STAT_ARGS_HELP →
      X.evlist_new = some evlist →
      w = { evlist := cmd_stat_evlist evlist stat_args, log := [Call.evlist_new] } →
      cmd_stat D X argv =
        .ok (s, wr.log ++ [Call.clock_gettime]
          ++ wr.evlist.entries.map Call.evsel_count_start ++ [Call.system cmd]
          ++ [Call.evlist_delete])) := by
  have hA : ∀ wh : World, wh.evlist.cmd_str = some cmd →
      perf_stat_handle X wh =
        (s, { wh with log := wh.log ++ wh.evlist.entries.map Call.evsel_count_start
                ++ [Call.system cmd] }) := by
    intro wh hwh
    rw [perf_stat_handle_failure X wh cmd hwh (by rw [hs]; exact hs0), hs]
  obtain ⟨reg, hr1, hr2, hr3⟩ := run_perf_stat_register_frame D X _ _ _ _ hreg
  have hlog0 : w0.log = w.log := by
    unfold run_perf_stat_cmd at h0
    simp only at h0
    split at h0
    · split at h0
      · simp at h0
      · simp only [Except.ok.injEq] at h0
        subst h0
        rfl
    · simp only [Except.ok.injEq] at h0
      subst h0
      rfl
  have hcmd : (wr.call Call.clock_gettime).evlist.cmd_str = some cmd := by
    simp only [World.call]
    rw [hr3]
    exact hc
  have hB : run_perf_stat D X w stat_args =
      .ok (s, { wr with log := wr.log ++ [Call.clock_gettime]
                  ++ wr.evlist.entries.map Call.evsel_count_start ++ [Call.system cmd] }) := by
    simp only [run_perf_stat, h0, hreg, ne_eq, not_true_eq_false, if_false,
      run_perf_stat_session, hA _ hcmd, hs0, not_false_eq_true, if_true]
    rfl
  refine ⟨hA, hB, ⟨reg, by rw [hr1, hlog0], hr2⟩, ?_⟩
  intro argv evlist hp hh hnew hw
  subst hw
  simp only [cmd_stat, hp, ne_eq, not_true_eq_false, hh, or_self, if_false, hnew, hB]

/-- C7 for `perf stat -C 1 ls -l` with the command exiting with status 3. -/
theorem workload_failure_witness :
    (run_perf_stat exDecls exCmdFailEnv exWorld exCmdArgs).toOption.map
        (fun r => (r.1, r.2.log))
      = some (3,
          [Call.evlist_new, Call.zalloc 384,
           Call.evlist_add_attrs (some (exDecls.default_hw_config.map (hw_attr exDecls))) 3 1,
           Call.clock_gettime,
           Call.evsel_count_start { handle := 100 }, Call.evsel_count_start { handle := 101 },
           Call.evsel_count_start { handle := 102 },
           Call.system "ls -l ".toList]) := by
  rw [(workload_failure exDecls exCmdFailEnv exWorld _ _ exCmdArgs "ls -l ".toList 3
    rfl rfl rfl rfl (by decide)).2.1]
  decide

/-! ## C8: the elapsed time -/

/-- C8, the code at a failing input: for the normalized timestamps
`start = 10.900000000` and `end = 15.100000000` (so `start <= end`), the
`run_time` that `run_perf_stat` hands to `print_counters` has
`tv_nsec = -800000000`, which is not in `0 .. 999999999`. -/
theorem run_time_negative_nsec :
    (0 ≤ exEnv.start_time.tv_nsec ∧ exEnv.start_time.tv_nsec < 1000000000) ∧
    (0 ≤ exEnv.end_time.tv_nsec ∧ exEnv.end_time.tv_nsec < 1000000000) ∧
    exEnv.start_time.tv_sec * 1000000000 + exEnv.start_time.tv_nsec
      ≤ exEnv.end_time.tv_sec * 1000000000 + exEnv.end_time.tv_nsec ∧
    run_time exEnv.start_time exEnv.end_time = { tv_sec := 5, tv_nsec := -800000000 } ∧
    ¬ (0 ≤ (run_time exEnv.start_time exEnv.end_time).tv_nsec) ∧
    (run_perf_stat exDecls exEnv exWorld exArgs).toOption.map (fun r => r.2.log.getLast?)
      = some (some (Call.print_counters { tv_sec := 5, tv_nsec := -800000000 })) := by
  decide

/-! ## C9: the passes of a successful session -/

/-- C9. When the workload command returns 0, `perf_stat_handle` logs the start
pass over every registered counter, the one `system` call, the read pass and
the count-end pass, each over every registered counter, and nothing else (no
`sleep`); without a command it sets `evlist->sec` to 5 and logs the start pass,
one `sleep(5)`, the read pass and the count-end pass (no `system`). -/
theorem session_passes (X : Env) (w : World) :
    (∀ cmd : List Char, w.evlist.cmd_str = some cmd → X.system cmd = 0 →
      (perf_stat_handle X w).2 =
        { w with log := w.log ++ w.evlist.entries.map Call.evsel_count_start
            ++ [Call.system cmd] ++ w.evlist.entries.map Call.evsel_read_counter
            ++ w.evlist.entries.map Call.evsel_count_end }) ∧
    (w.evlist.cmd_str = none →
      (perf_stat_handle X w).2 =
        { evlist := { w.evlist with sec := 5 },
          log := w.log ++ w.evlist.entries.map Call.evsel_count_start
            ++ [Call.sleep 5] ++ w.evlist.entries.map Call.evsel_read_counter
            ++ w.evlist.entries.map Call.evsel_count_end }) :=
  ⟨fun cmd hc hs => perf_stat_handle_success X w cmd hc hs,
   fun hc => perf_stat_handle_duration X w hc⟩

/-- C9 with two registered counters, in command mode and in duration mode. -/
theorem session_passes_witness :
    (perf_stat_handle exEnv
        { evlist := { exEvlist with cmd_str := some "ls ".toList,
                                    entries := [{ handle := 7 }, { handle := 8 }] },
          log := [] }).2.log
      = [Call.evsel_count_start { handle := 7 }, Call.evsel_count_start { handle := 8 },
         Call.system "ls ".toList,
         Call.evsel_read_counter { handle := 7 }, Call.evsel_read_counter { handle := 8 },
         Call.evsel_count_end { handle := 7 }, Call.evsel_count_end { handle := 8 }] ∧
    (perf_stat_handle exEnv
        { evlist := { exEvlist with entries := [{ handle := 7 }, { handle := 8 }] },
          log := [] }).2.log
      = [Call.evsel_count_start { handle := 7 }, Call.evsel_count_start { handle := 8 },
         Call.sleep 5,
         Call.evsel_read_counter { handle := 7 }, Call.evsel_read_counter { handle := 8 },
         Call.evsel_count_end { handle := 7 }, Call.evsel_count_end { handle := 8 }] := by
  constructor
  · rw [(session_passes exEnv _).1 "ls ".toList rfl rfl]
    rfl
  · rw [(session_passes exEnv _).2 rfl]
    rfl

/-! ## C10: teardown -/

/-- C10. Whenever `evlist_new` succeeds in `cmd_stat` (the options parsed and
no help asked for), then for every status `st` and final state that
`run_perf_stat` returns, `cmd_stat` returns `st` unchanged and its calls are
`evlist_new`, the calls of `run_perf_stat`, and last one `evlist_delete`, which
is the only `evlist_delete` of the run. -/
theorem teardown_always (D : Decls) (X : Env) (argv : List (List Char)) (evlist : evlist_s)
    (st : Int) (w1 : World)
    (hp : (X.parse_stat_options argv).1 = 0)
    (hh : (X.parse_stat_options argv).2.type ≠ D.STAT_ARGS_HELP)
    (hnew : X.evlist_new = some evlist)
    (hrun : run_perf_stat D X
        { evlist := cmd_stat_evlist evlist (X.parse_stat_options argv).2,
          log := [Call.evlist_new] }
        (X.parse_stat_options argv).2 = .ok (st, w1)) :
    cmd_stat D X argv = .ok (st, w1.log ++ [Call.evlist_delete]) ∧
    (w1.log ++ [Call.evlist_delete]).count Call.evlist_delete = 1 ∧
    (w1.log ++ [Call.evlist_delete]).getLast? = some Call.evlist_delete := by
  refine ⟨?_, ?_, by simp⟩
  · simp only [cmd_stat, hp, ne_eq, not_true_eq_false, hh, or_self, if_false, hnew, hrun]
  · obtain ⟨calls, h1, h2⟩ := run_perf_stat_frame D X _ _ _ _ hrun
    have hnot : Call.evlist_delete ∉ w1.log := by
      rw [h1]
      simp only [List.singleton_append, List.mem_cons, not_or]
      refine ⟨by simp, ?_⟩
      intro hmem
      rcases h2 _ hmem with h | h <;> simp [Call.is_registration, Call.is_session] at h
    rw [List.count_append, List.count_eq_zero.mpr hnot]
    simp

/-- C10 for a run whose workload command fails with status 3. -/
theorem teardown_always_witness :
    (cmd_stat exDecls exCmdFailEnv ["ls".toList]).toOption.map
        (fun r => (r.1, r.2.getLast?, r.2.count Call.evlist_delete))
      = some (3, some Call.evlist_delete, 1) := by
  obtain ⟨h1, h2, h3⟩ := teardown_always exDecls exCmdFailEnv ["ls".toList] exEvlist 3
    { evlist := { exEvlist with system_wide := true, cpu := -1, pid := -1,
                                cmd_str := some "ls ".toList, defult_attrs := true,
                                attrs := some (exDecls.default_hw_config.map (hw_attr exDecls)),
                                entries := [{ handle := 0 }, { handle := 1 }, { handle := 2 },
                                  { handle := 100 }, { handle := 101 }, { handle := 102 }] },
      log := [Call.evlist_new, Call.zalloc 384,
        Call.evlist_add_attrs (some (exDecls.default_hw_config.map (hw_attr exDecls))) 3 0,
        Call.evlist_add_attrs (some (exDecls.default_hw_config.map (hw_attr exDecls))) 3 1,
        Call.clock_gettime,
        Call.evsel_count_start { handle := 0 }, Call.evsel_count_start { handle := 1 },
        Call.evsel_count_start { handle := 2 },
        Call.evsel_count_start { handle := 100 }, Call.evsel_count_start { handle := 101 },
        Call.evsel_count_start { handle := 102 },
        Call.system "ls ".toList] }
    rfl (by decide) rfl (by decide)
  rw [h1]
  simp only [Except.toOption, Option.map_some', h2, h3]

/-! ## C13: the second scan stays inside the array -/

theorem hw_attr_ne_zero (D : Decls) (j : Nat) : hw_attr D j ≠ perf_event_attr_s.zero := by
  intro h
  have := congrArg perf_event_attr_s.disabled h
  simp [hw_attr, perf_event_attr_s.zero] at this

/-- C13. For every event string with `check_event = n > 0` and every array of
exactly `n` descriptors, followed in memory by anything (`rest`),
`set_specified_attributes` runs without a fault (no access at an index `>= n`),
returns 0 (not `-EINVAL`), leaves `rest` as it was, and has written every one of
the `n` entries: each is the descriptor of a table index `j < PERF_COUNT_HW_MAX`
and so differs from the zero-filled entry. -/
theorem second_scan_in_bounds (D : Decls) (evstr : List Char) (n : Nat)
    (attrs rest : List perf_event_attr_s)
    (hc : check_event D evstr = .ok n) (hn : 0 < n) (hlen : attrs.length = n) :
    ∃ filled : List perf_event_attr_s,
      set_specified_attributes D evstr (attrs ++ rest) = .ok (0, filled ++ rest) ∧
      filled.length = n ∧
      (∀ a ∈ filled, ∃ j, j < D.PERF_COUNT_HW_MAX ∧
        a = { type := D.PERF_TYPE_HARDWARE, size := D.sizeof_attr, config := j,
              disabled := 1, inherit := 1 }) ∧
      (∀ a ∈ filled, a ≠ perf_event_attr_s.zero) := by
  have hn0 : n ≠ 0 := by omega
  have hl := (set_specified_of_check D evstr n hc hn0).1
  rw [check_event_eq] at hc
  obtain ⟨_, filled, hf1, hf2, hf3⟩ := set_tokens_of_check D (tokens evstr) [] attrs rest n hc
    hn0 (by rw [hlen, hl])
  simp only [List.length_nil, List.nil_append] at hf3
  refine ⟨filled, by rw [set_specified_attributes_eq]; exact hf3, by omega, hf2, ?_⟩
  intro a ha
  obtain ⟨j, _, rfl⟩ := hf2 a ha
  exact hw_attr_ne_zero D j

/-- C13 at the spec `"cache-misses,cycles"`, the array followed by one more
descriptor. -/
theorem second_scan_in_bounds_witness :
    ∃ filled : List perf_event_attr_s,
      set_specified_attributes exDecls "cache-misses,cycles".toList
          ([perf_event_attr_s.zero, perf_event_attr_s.zero] ++ [hw_attr exDecls 7])
        = .ok (0, filled ++ [hw_attr exDecls 7]) ∧
      filled.length = 2 ∧
      (∀ a ∈ filled, ∃ j, j < exDecls.PERF_COUNT_HW_MAX ∧
        a = { type := exDecls.PERF_TYPE_HARDWARE, size := exDecls.sizeof_attr, config := j,
              disabled := 1, inherit := 1 }) ∧
      (∀ a ∈ filled, a ≠ perf_event_attr_s.zero) :=
  second_scan_in_bounds exDecls "cache-misses,cycles".toList 2
    [perf_event_attr_s.zero, perf_event_attr_s.zero] [hw_attr exDecls 7]
    (by decide) (by decide) rfl

/-! ## C15: the elapsed time, field by field -/

theorem wrap_signed_of_fits (x : Int)
    (h : -9223372036854775808 ≤ x ∧ x < 9223372036854775808) :
    wrap_signed 64 x = x := by
  unfold wrap_signed
  norm_num
  omega

/-- C15, the claim as stated fails: the fields have 64 bits, and for
`start = {-1, 0}`, `end = {9223372036854775807, 0}` the subtraction of the
seconds wraps to `-9223372036854775808`, so `run_time.tv_sec * 1000000000 +
run_time.tv_nsec` is not the difference of the two times. -/
theorem run_time_wraps :
    run_time { tv_sec := -1, tv_nsec := 0 } { tv_sec := 9223372036854775807, tv_nsec := 0 }
      = { tv_sec := -9223372036854775808, tv_nsec := 0 } ∧
    ¬ ((run_time { tv_sec := -1, tv_nsec := 0 }
            { tv_sec := 9223372036854775807, tv_nsec := 0 }).tv_sec * 1000000000
          + (run_time { tv_sec := -1, tv_nsec := 0 }
            { tv_sec := 9223372036854775807, tv_nsec := 0 }).tv_nsec
        = ((9223372036854775807 : Int) * 1000000000 + 0) - ((-1 : Int) * 1000000000 + 0)) := by
  decide

/-- C15 (amended). For every pair of timestamps whose differences
`end.tv_sec - start.tv_sec` and `end.tv_nsec - start.tv_nsec` fit the 64-bit
fields, the `run_time` of `run_perf_stat` satisfies `tv_sec * 1000000000 +
tv_nsec = (end.tv_sec * 1000000000 + end.tv_nsec) - (start.tv_sec * 1000000000
+ start.tv_nsec)`, its `tv_nsec` is negative exactly when `end.tv_nsec <
start.tv_nsec`, and its `tv_sec` is `end.tv_sec - start.tv_sec`: nothing is
borrowed from the seconds. -/
theorem run_time_fieldwise (start_time end_time : timespec)
    (hsec : -9223372036854775808 ≤ end_time.tv_sec - start_time.tv_sec ∧
      end_time.tv_sec - start_time.tv_sec < 9223372036854775808)
    (hnsec : -9223372036854775808 ≤ end_time.tv_nsec - start_time.tv_nsec ∧
      end_time.tv_nsec - start_time.tv_nsec < 9223372036854775808) :
    (run_time start_time end_time).tv_sec * 1000000000
        + (run_time start_time end_time).tv_nsec
      = (end_time.tv_sec * 1000000000 + end_time.tv_nsec)
        - (start_time.tv_sec * 1000000000 + start_time.tv_nsec) ∧
    ((run_time start_time end_time).tv_nsec < 0 ↔ end_time.tv_nsec < start_time.tv_nsec) ∧
    (run_time start_time end_time).tv_sec = end_time.tv_sec - start_time.tv_sec := by
  have h1 : (run_time start_time end_time).tv_sec = end_time.tv_sec - start_time.tv_sec :=
    wrap_signed_of_fits _ hsec
  have h2 : (run_time start_time end_time).tv_nsec = end_time.tv_nsec - start_time.tv_nsec :=
    wrap_signed_of_fits _ hnsec
  refine ⟨?_, ?_, h1⟩
  · rw [h1, h2]
    ring
  · rw [h2]
    omega

/-- C15 (amended) at `start = 10.900000000`, `end = 15.100000000`. -/
theorem run_time_fieldwise_witness :
    (run_time { tv_sec := 10, tv_nsec := 900000000 }
          { tv_sec := 15, tv_nsec := 100000000 }).tv_sec * 1000000000
        + (run_time { tv_sec := 10, tv_nsec := 900000000 }
          { tv_sec := 15, tv_nsec := 100000000 }).tv_nsec
      = ((15 : Int) * 1000000000 + 100000000) - ((10 : Int) * 1000000000 + 900000000) ∧
    ((run_time { tv_sec := 10, tv_nsec := 900000000 }
          { tv_sec := 15, tv_nsec := 100000000 }).tv_nsec < 0
      ↔ (100000000 : Int) < 900000000) ∧
    (run_time { tv_sec := 10, tv_nsec := 900000000 }
          { tv_sec := 15, tv_nsec := 100000000 }).tv_sec = (15 : Int) - 10 :=
  run_time_fieldwise { tv_sec := 10, tv_nsec := 900000000 }
    { tv_sec := 15, tv_nsec := 100000000 } (by decide) (by decide)

/-! ## C14: a token that fills the buffer -/

theorem strcmp_eq_full (t : List Char) :
    ∀ name : List Char, NUL ∉ t → name.length < t.length → strcmp_eq name t = .ok false := by
  induction t with
  | nil => intro name _ h; simp at h
  | cons b bs ih =>
    intro name ht hl
    simp only [List.mem_cons, not_or] at ht
    have hb : b ≠ NUL := fun e => ht.1 e.symm
    cases name with
    | nil =>
      rw [strcmp_eq, if_pos (by simpa using ht.1)]
    | cons c cs =>
      simp only [List.length_cons] at hl
      rw [strcmp_eq]
      by_cases hcb : c = b
      · subst hcb
        rw [if_neg (by simp), if_neg hb]
        exact ih cs ht.2 (by simpa using hl)
      · rw [if_pos (by simpa using hcb)]

theorem padded_of_full (t : List Char) (h : t.length = PERF_STAT_DEFAULT_MAX_EVSTR) :
    padded t = t := by
  simp [padded, h]

theorem check_event_find_full (names : List (List Char)) (t : List Char)
    (hshort : ∀ name ∈ names, name.length < PERF_STAT_DEFAULT_MAX_EVSTR)
    (ht : NUL ∉ t) (h64 : t.length = PERF_STAT_DEFAULT_MAX_EVSTR) :
    ∀ j, check_event_find (padded t) names j = .ok (j + names.length) := by
  induction names with
  | nil => intro j; rfl
  | cons name rest ih =>
    intro j
    rw [check_event_find, padded_of_full t h64,
      strcmp_eq_full t name ht (by rw [h64]; exact hshort name (by simp))]
    simp only
    rw [← padded_of_full t h64, ih (fun n hn => hshort n (by simp [hn])) (j + 1)]
    simp only [List.length_cons]
    congr 1
    omega

theorem check_tokens_full (D : Decls)
    (hshort : ∀ name ∈ D.evsel_hw_names, name.length < PERF_STAT_DEFAULT_MAX_EVSTR) :
    ∀ (ts : List (List Char)) (evnum : Nat), (∀ t ∈ ts, NUL ∉ t) →
      (∃ t ∈ ts, t.length = PERF_STAT_DEFAULT_MAX_EVSTR) → check_tokens D ts evnum = .ok 0 := by
  intro ts
  induction ts with
  | nil => intro evnum _ h; simp at h
  | cons t ts ih =>
    intro evnum hN hfull
    rw [check_tokens_cons]
    by_cases hl : t.length > PERF_STAT_DEFAULT_MAX_EVSTR
    · rw [if_pos hl]
    · rw [if_neg hl]
      by_cases h64 : t.length = PERF_STAT_DEFAULT_MAX_EVSTR
      · rw [check_event_find_full _ t hshort (hN t (by simp)) h64 0]
        simp [Decls.PERF_COUNT_HW_MAX]
      · obtain ⟨j, hj⟩ := check_event_find_ok D.evsel_hw_names (padded t)
          (by rw [padded_length t (by omega)]; exact hshort) 0
        rw [hj]
        simp only
        split
        · rfl
        · apply ih (evnum + 1) (fun t1 h1 => hN t1 (by simp [h1]))
          obtain ⟨b, hb, hb2⟩ := hfull
          simp only [List.mem_cons] at hb
          rcases hb with rfl | hb
          · exact absurd hb2 h64
          · exact ⟨b, hb, hb2⟩

/-- C14. With all table names shorter than 64 characters, for every event spec
with a token of exactly 64 characters: that token passes the length check and
fills the scratch buffer (no NUL in it); every `strcmp` of a table name against
the buffer, for this and for every other copied token, ends inside the 64
bytes (no fault for a read at index `>= 64`); against the full buffer no name
matches; and `check_event` returns 0. -/
theorem full_buffer_token (D : Decls) (evstr : List Char)
    (hshort : ∀ name ∈ D.evsel_hw_names, name.length < PERF_STAT_DEFAULT_MAX_EVSTR)
    (h64 : ∃ tok ∈ tokens evstr, tok.length = PERF_STAT_DEFAULT_MAX_EVSTR) :
    check_event D evstr = .ok 0 ∧
    (∀ tok ∈ tokens evstr, tok.length = PERF_STAT_DEFAULT_MAX_EVSTR →
      ¬ (tok.length > PERF_STAT_DEFAULT_MAX_EVSTR) ∧ padded tok = tok ∧ NUL ∉ padded tok ∧
      ∀ name ∈ D.evsel_hw_names, strcmp_eq name (padded tok) = .ok false) ∧
    (∀ tok ∈ tokens evstr, tok.length ≤ PERF_STAT_DEFAULT_MAX_EVSTR →
      ∀ name ∈ D.evsel_hw_names, ∃ b, strcmp_eq name (padded tok) = .ok b) := by
  refine ⟨?_, ?_, ?_⟩
  · rw [check_event_eq]
    exact check_tokens_full D hshort _ 0 (fun t ht => NUL_not_mem_token evstr t ht) h64
  · intro tok htok hlen
    have hN := NUL_not_mem_token evstr tok htok
    refine ⟨by omega, padded_of_full tok hlen, by rw [padded_of_full tok hlen]; exact hN, ?_⟩
    intro name hname
    rw [padded_of_full tok hlen]
    exact strcmp_eq_full tok name hN (by rw [hlen]; exact hshort name hname)
  · intro tok _ hlen name hname
    exact strcmp_eq_no_overread (padded tok) name
      (by rw [padded_length tok hlen]; exact hshort name hname)

/-- C14 at a spec whose second token is 64 times `x`. -/
theorem full_buffer_token_witness :
    (∀ name ∈ exDecls.evsel_hw_names, name.length < PERF_STAT_DEFAULT_MAX_EVSTR) ∧
    (∃ tok ∈ tokens exFullSpec, tok.length = PERF_STAT_DEFAULT_MAX_EVSTR) ∧
    check_event exDecls exFullSpec = .ok 0 :=
  ⟨by decide, by decide, (full_buffer_token exDecls exFullSpec (by decide) (by decide)).1⟩

/-! ## C16: the workload command line -/

theorem cmd_str_loop_spec :
    ∀ (args : List (List Char)) (acc : List Char),
      acc.length + 1 ≤ PERF_STAT_DEFAULT_MAX_CMDSTR →
      cmd_str_loop args acc =
        if acc.length + ((args.map strlen).sum + args.length) + 1
            ≤ PERF_STAT_DEFAULT_MAX_CMDSTR then
          .ok (acc ++ (args.map (fun a => cstr a ++ [' '])).flatten)
        else .error .cmd_overflow := by
  intro args
  induction args with
  | nil =>
    intro acc hacc
    simp [cmd_str_loop, hacc]
  | cons a rest ih =>
    intro acc hacc
    have hsp : strlen [' '] = 1 := by decide
    rw [cmd_str_loop]
    unfold strcat
    by_cases h1 : acc.length + strlen a + 1 ≤ PERF_STAT_DEFAULT_MAX_CMDSTR
    · rw [if_pos h1]
      simp only
      have hl1 : (acc ++ List.take (strlen a) a).length = acc.length + strlen a := by
        simp [strlen_le]
      by_cases h2 : acc.length + strlen a + 1 + 1 ≤ PERF_STAT_DEFAULT_MAX_CMDSTR
      · rw [if_pos (by rw [hl1, hsp]; exact h2)]
        simp only
        rw [ih _ (by simp only [List.length_append, hl1, hsp]; simpa using h2)]
        have hc : (acc ++ List.take (strlen a) a ++ List.take (strlen [' ']) [' ']).length
            + ((rest.map strlen).sum + rest.length) + 1
            = acc.length + (((a :: rest).map strlen).sum + (a :: rest).length) + 1 := by
          simp only [List.length_append, hl1, hsp, List.map_cons, List.sum_cons,
            List.length_cons]
          simp
          omega
        rw [hc]
        split
        · simp [cstr, hsp]
        · rfl
      · rw [if_neg (by rw [hl1, hsp]; exact h2), if_neg]
        simp only [List.map_cons, List.sum_cons, List.length_cons]
        omega
    · rw [if_neg h1, if_neg]
      simp only [List.map_cons, List.sum_cons, List.length_cons]
      omega

/-- C16. With `cmd_nr > 0` workload arguments, the command line that
`run_perf_stat` builds and stores in `evlist->cmd_str` is the arguments in
their order, each followed by one space (also the last); it is built exactly
when the sum of the argument lengths plus `cmd_nr` is at most 127, which is
when the string and its terminator fit the 128 bytes of `cmd_str`, and the
build runs past the buffer otherwise. With `cmd_nr = 0` `evlist->cmd_str` is
not assigned. -/
theorem cmd_str_built (w : World) (stat_args : stat_args_s) :
    (0 < stat_args.cmd_nr →
      ((stat_args.cmd_args.map strlen).sum + stat_args.cmd_nr ≤ 127 →
        run_perf_stat_cmd w stat_args = .ok
          { w with evlist :=
            { w.evlist with
              cpu := stat_args.cpu, pid := stat_args.pid,
              cmd_str := some (stat_args.cmd_args.map (fun a => cstr a ++ [' '])).flatten } }) ∧
      (¬ (stat_args.cmd_args.map strlen).sum + stat_args.cmd_nr ≤ 127 →
        run_perf_stat_cmd w stat_args = .error .cmd_overflow) ∧
      (((stat_args.cmd_args.map (fun a => cstr a ++ [' '])).flatten.length + 1
          ≤ PERF_STAT_DEFAULT_MAX_CMDSTR) ↔
        (stat_args.cmd_args.map strlen).sum + stat_args.cmd_nr ≤ 127)) ∧
    (stat_args.cmd_nr = 0 →
      run_perf_stat_cmd w stat_args = .ok
        { w with evlist :=
          { w.evlist with cpu := stat_args.cpu, pid := stat_args.pid } }) := by
  have hloop := cmd_str_loop_spec stat_args.cmd_args [] (by decide)
  simp only [List.length_nil, Nat.zero_add, List.nil_append] at hloop
  have hlen : ∀ args : List (List Char),
      (args.map (fun a => cstr a ++ [' '])).flatten.length
        = (args.map strlen).sum + args.length := by
    intro args
    induction args with
    | nil => rfl
    | cons a rest ih =>
      simp only [List.map_cons, List.flatten_cons, List.length_append, ih, cstr_length,
        List.length_singleton, List.sum_cons, List.length_cons, List.length_nil]
      omega
  refine ⟨fun hnr => ⟨?_, ?_, ?_⟩, ?_⟩
  · intro hfit
    unfold run_perf_stat_cmd
    simp only [hnr, if_true, hloop]
    rw [if_pos (by simp only [stat_args_s.cmd_nr, PERF_STAT_DEFAULT_MAX_CMDSTR] at *; omega)]
  · intro hfit
    unfold run_perf_stat_cmd
    simp only [hnr, if_true, hloop]
    rw [if_neg (by simp only [stat_args_s.cmd_nr, PERF_STAT_DEFAULT_MAX_CMDSTR] at *; omega)]
  · rw [hlen]
    simp only [stat_args_s.cmd_nr, PERF_STAT_DEFAULT_MAX_CMDSTR]
    omega
  · intro h0
    unfold run_perf_stat_cmd
    simp only [h0, Nat.lt_irrefl, gt_iff_lt, if_false]

/-- C16 for the arguments `ls` and `-l`. -/
theorem cmd_str_built_witness :
    run_perf_stat_cmd exWorld exCmdArgs = .ok
      { exWorld with evlist :=
        { exWorld.evlist with cpu := 1, pid := -1, cmd_str := some "ls -l ".toList } } := by
  rw [((cmd_str_built exWorld exCmdArgs).1 (by decide)).1 (by decide)]
  decide

/-! ## C11: the error codes of the builders -/

theorem add_attrs_calls_ne_nil (D : Decls) (X : Env) (evnum : Nat) (w w1 : World) (st : Int)
    (h : add_attrs D X evnum none w = .ok (st, w1)) :
    add_attrs_calls D w.evlist.system_wide w.evlist.cpu w.evlist.attrs evnum ≠ [] := by
  unfold add_attrs at h
  unfold add_attrs_calls
  by_cases hs : w.evlist.system_wide = true
  · rw [if_pos hs] at h
    rw [if_pos hs]
    rcases Nat.eq_zero_or_pos D.CONFIG_SMP_NCPUS with hk | hk
    · rw [hk] at h
      simp [add_attrs_loop] at h
    · intro he
      simp only [List.map_eq_nil_iff, List.range_eq_nil] at he
      omega
  · rw [if_neg hs]
    simp

theorem add_specified_attributes_reached (D : Decls) (X : Env) (w w1 : World)
    (evstr : List Char) (n : Nat) (st : Int)
    (hc : check_event D evstr = .ok n) (hn : n ≠ 0)
    (hz : X.zalloc (n * D.sizeof_attr) = true)
    (h : add_specified_attributes D X w (some evstr) = .ok (st, w1)) :
    w1.log.filter Call.is_add_attrs ≠ w.log.filter Call.is_add_attrs := by
  obtain ⟨_, filled, _, _, hf3⟩ := set_specified_of_check D evstr n hc hn
  simp only [add_specified_attributes, hc, hn, if_false, hz, hf3, World.call] at h
  obtain ⟨h1, _⟩ := add_attrs_frame D X _ _ _ _ _ h
  have hne := add_attrs_calls_ne_nil D X _ _ _ _ h
  have hall := add_attrs_calls_registration D w.evlist.system_wide w.evlist.cpu
    (some filled) n
  have h2 : w1.log = w.log ++ [Call.zalloc (n * D.sizeof_attr)]
      ++ add_attrs_calls D w.evlist.system_wide w.evlist.cpu (some filled) n := h1
  have hne2 : add_attrs_calls D w.evlist.system_wide w.evlist.cpu (some filled) n ≠ [] := hne
  generalize add_attrs_calls D w.evlist.system_wide w.evlist.cpu (some filled) n = calls
    at h2 hne2 hall
  rw [h2, List.filter_append, List.filter_append, List.filter_eq_self.mpr hall]
  intro he
  have hlen := congrArg List.length he
  have hpos := List.length_pos.mpr hne2
  have hz0 : ([Call.zalloc (n * D.sizeof_attr)].filter Call.is_add_attrs).length = 0 := rfl
  simp only [List.length_append, hz0] at hlen
  omega

/-- C11, the claim as stated fails: with a valid spec (`check_event = 1`) and a
successful `zalloc`, `add_specified_attributes` still returns `-ENOMEM` when the
registry's `evlist_add_attrs` returns `-ENOMEM`, and `-EINVAL` when it returns
`-EINVAL`. -/
theorem registry_status_passed_through :
    check_event exDecls "cycles".toList = .ok 1 ∧
    exFailEnv.zalloc (1 * exDecls.sizeof_attr) = true ∧
    (add_specified_attributes exDecls exFailEnv exWorld (some "cycles".toList)).toOption.map
      Prod.fst = some (-ENOMEM) ∧
    exRejectEnv.zalloc (1 * exDecls.sizeof_attr) = true ∧
    (add_specified_attributes exDecls exRejectEnv exWorld (some "cycles".toList)).toOption.map
      Prod.fst = some (-EINVAL) := by
  decide

/-- C11 (amended). `-EINVAL` differs from `-ENOMEM`. `add_specified_attributes`
returns `-EINVAL`, the state untouched, when the event string is NULL or
`check_event` returns 0, and `-ENOMEM`, after the `zalloc` only, when the
validation succeeded and the allocation failed; `add_default_attributes`
returns `-ENOMEM` after the `zalloc` only when the allocation fails. Among the
returns of `add_specified_attributes` made without a call of
`evlist_add_attrs`, the status is `-EINVAL` exactly in the first case and
`-ENOMEM` exactly in the second. When the validation and the allocation succeed
and the target is a single CPU (`system_wide` false),
`add_specified_attributes` calls `evlist_add_attrs` once, with `evlist->cpu`,
and returns the status of that call, whatever it is. -/
theorem builder_error_codes (D : Decls) (X : Env) (w : World) :
    -EINVAL ≠ -ENOMEM ∧
    add_specified_attributes D X w none = .ok (-EINVAL, w) ∧
    (∀ evstr : List Char, check_event D evstr = .ok 0 →
      add_specified_attributes D X w (some evstr) = .ok (-EINVAL, w)) ∧
    (∀ (evstr : List Char) (n : Nat), check_event D evstr = .ok n → n ≠ 0 →
      X.zalloc (n * D.sizeof_attr) = false →
      add_specified_attributes D X w (some evstr) = .ok (-ENOMEM,
        { evlist := { w.evlist with attrs := none },
          log := w.log ++ [Call.zalloc (n * D.sizeof_attr)] })) ∧
    (X.zalloc (D.default_hw_config.length * D.sizeof_attr) = false →
      add_default_attributes D X w = .ok (-ENOMEM,
        { evlist := { w.evlist with attrs := none },
          log := w.log ++ [Call.zalloc (D.default_hw_config.length * D.sizeof_attr)] })) ∧
    (∀ (evstr : Option (List Char)) (st : Int) (w1 : World),
      add_specified_attributes D X w evstr = .ok (st, w1) →
      w1.log.filter Call.is_add_attrs = w.log.filter Call.is_add_attrs →
      (st = -EINVAL ↔
        (evstr = none ∨ ∃ s, evstr = some s ∧ check_event D s = .ok 0)) ∧
      (st = -ENOMEM ↔
        ∃ s n, evstr = some s ∧ check_event D s = .ok n ∧ n ≠ 0 ∧
          X.zalloc (n * D.sizeof_attr) = false)) ∧
    (∀ (evstr : List Char) (n : Nat), check_event D evstr = .ok n → n ≠ 0 →
      X.zalloc (n * D.sizeof_attr) = true → w.evlist.system_wide = false →
      ∃ filled : List perf_event_attr_s,
        set_specified_attributes D evstr (List.replicate n perf_event_attr_s.zero)
          = .ok (0, filled) ∧
        add_specified_attributes D X w (some evstr) = .ok
          ((X.evlist_add_attrs w.evlist.entries (some filled) n w.evlist.cpu).1,
           { evlist :=
               { w.evlist with
                 attrs := some filled,
                 entries :=
                   (X.evlist_add_attrs w.evlist.entries (some filled) n w.evlist.cpu).2 },
             log := w.log ++ [Call.zalloc (n * D.sizeof_attr),
               Call.evlist_add_attrs (some filled) n w.evlist.cpu] })) := by
  have hne : -EINVAL ≠ -ENOMEM := by decide
  have hA : ∀ evstr : List Char, check_event D evstr = .ok 0 →
      add_specified_attributes D X w (some evstr) = .ok (-EINVAL, w) := by
    intro evstr hc
    simp only [add_specified_attributes, hc, if_true]
  have hB : ∀ (evstr : List Char) (n : Nat), check_event D evstr = .ok n → n ≠ 0 →
      X.zalloc (n * D.sizeof_attr) = false →
      add_specified_attributes D X w (some evstr) = .ok (-ENOMEM,
        { evlist := { w.evlist with attrs := none },
          log := w.log ++ [Call.zalloc (n * D.sizeof_attr)] }) := by
    intro evstr n hc hn hz
    simp only [add_specified_attributes, hc, hn, if_false, hz, Bool.not_false, if_true,
      World.call]
  refine ⟨hne, rfl, hA, hB, ?_, ?_, ?_⟩
  rotate_left 2
  · intro evstr n hc hn hz hsw
    obtain ⟨_, filled, _, _, hf3⟩ := set_specified_of_check D evstr n hc hn
    refine ⟨filled, hf3, ?_⟩
    simp only [add_specified_attributes, hc, hn, if_false, hz, Bool.not_true, hf3, World.call,
      add_attrs, hsw, Bool.false_eq_true, List.append_assoc, List.singleton_append]
  · intro hz
    simp only [add_default_attributes, hz, Bool.not_false, if_true, World.call]
  · intro evstr st w1 h hlog
    cases evstr with
    | none =>
      simp only [add_specified_attributes, Except.ok.injEq, Prod.mk.injEq] at h
      obtain ⟨rfl, _⟩ := h
      refine ⟨⟨fun _ => Or.inl rfl, fun _ => rfl⟩, ⟨fun e => absurd e hne, ?_⟩⟩
      rintro ⟨s, n, hs, _⟩
      simp at hs
    | some s =>
      cases hc : check_event D s with
      | error e => simp [add_specified_attributes, hc] at h
      | ok n =>
        by_cases hn : n = 0
        · subst hn
          rw [hA s hc] at h
          simp only [Except.ok.injEq, Prod.mk.injEq] at h
          obtain ⟨rfl, _⟩ := h
          refine ⟨⟨fun _ => Or.inr ⟨s, rfl, hc⟩, fun _ => rfl⟩,
            ⟨fun e => absurd e hne, ?_⟩⟩
          rintro ⟨s1, n1, hs1, hc1, hn1, _⟩
          simp only [Option.some.injEq] at hs1
          subst hs1
          rw [hc] at hc1
          simp only [Except.ok.injEq] at hc1
          exact absurd hc1.symm hn1
        · cases hz : X.zalloc (n * D.sizeof_attr) with
          | false =>
            rw [hB s n hc hn hz] at h
            simp only [Except.ok.injEq, Prod.mk.injEq] at h
            obtain ⟨rfl, _⟩ := h
            refine ⟨⟨fun e => absurd e.symm hne, ?_⟩, ⟨fun _ => ⟨s, n, rfl, hc, hn, hz⟩,
              fun _ => rfl⟩⟩
            rintro (h1 | ⟨s1, hs1, hc1⟩)
            · simp at h1
            · simp only [Option.some.injEq] at hs1
              subst hs1
              rw [hc] at hc1
              simp only [Except.ok.injEq] at hc1
              exact absurd hc1 hn
          | true =>
            exact absurd hlog (add_specified_attributes_reached D X w w1 s n st hc hn hz h)

/-- C11 (amended) for the spec `"cycles"` with a failing `zalloc`, for a spec
with an empty token, and for a registry that fails with `-ENOMEM` on the single
target CPU 0. -/
theorem builder_error_codes_witness :
    add_specified_attributes exDecls { exEnv with zalloc := fun _ => false } exWorld
        (some "cycles".toList)
      = .ok (-ENOMEM,
          { evlist := { exWorld.evlist with attrs := none },
            log := exWorld.log ++ [Call.zalloc (1 * exDecls.sizeof_attr)] }) ∧
    add_specified_attributes exDecls exEnv exWorld (some "cycles,".toList)
      = .ok (-EINVAL, exWorld) ∧
    ∃ filled : List perf_event_attr_s,
      set_specified_attributes exDecls "cycles".toList
          (List.replicate 1 perf_event_attr_s.zero) = .ok (0, filled) ∧
      add_specified_attributes exDecls exFailEnv exWorld (some "cycles".toList) = .ok
        ((exFailEnv.evlist_add_attrs exWorld.evlist.entries (some filled) 1
            exWorld.evlist.cpu).1,
         { evlist :=
             { exWorld.evlist with
               attrs := some filled,
               entries :=
                 (exFailEnv.evlist_add_attrs exWorld.evlist.entries (some filled) 1
                   exWorld.evlist.cpu).2 },
           log := exWorld.log ++ [Call.zalloc (1 * exDecls.sizeof_attr),
             Call.evlist_add_attrs (some filled) 1 exWorld.evlist.cpu] }) :=
  ⟨(builder_error_codes exDecls { exEnv with zalloc := fun _ => false } exWorld).2.2.2.1
      "cycles".toList 1 (by decide) (by decide) rfl,
   (builder_error_codes exDecls exEnv exWorld).2.2.1 "cycles,".toList (by decide),
   (builder_error_codes exDecls exFailEnv exWorld).2.2.2.2.2.2
      "cycles".toList 1 (by decide) (by decide) rfl rfl⟩

/-! ## C12: the targeting mode -/

theorem run_perf_stat_after_register (D : Decls) (X : Env) (w w0 wr : World)
    (stat_args : stat_args_s) (st1 : Int)
    (h0 : run_perf_stat_cmd w stat_args = .ok w0)
    (hreg : run_perf_stat_register D X w0 stat_args = .ok (st1, wr)) :
    ∃ (st : Int) (w1 : World), run_perf_stat D X w stat_args = .ok (st, w1) ∧
      w1.evlist = { wr.evlist with sec := w1.evlist.sec } ∧
      w1.log.filter Call.is_add_attrs = wr.log.filter Call.is_add_attrs := by
  by_cases hst : st1 ≠ 0
  · refine ⟨st1, wr, ?_, rfl, rfl⟩
    simp only [run_perf_stat, h0, hreg]
    rw [if_pos hst]
  · obtain ⟨calls, h4, h5, h6⟩ := run_perf_stat_session_frame X wr
    refine ⟨(run_perf_stat_session X wr).1, (run_perf_stat_session X wr).2, ?_, h6, ?_⟩
    · simp only [run_perf_stat, h0, hreg]
      rw [if_neg hst]
    · rw [h4, List.filter_append, filter_add_attrs_session calls h5, List.append_nil]

theorem single_target_registration (D : Decls) (X : Env) (w : World) (stat_args : stat_args_s)
    (cmd_str : List Char)
    (hsw : w.evlist.system_wide = false)
    (hcmd : cmd_str_loop stat_args.cmd_args [] = .ok cmd_str)
    (hreach : (stat_args.events = none ∧
        X.zalloc (D.default_hw_config.length * D.sizeof_attr) = true) ∨
      (∃ (evstr : List Char) (n : Nat), stat_args.events = some evstr ∧
        check_event D evstr = .ok n ∧ n ≠ 0 ∧ X.zalloc (n * D.sizeof_attr) = true)) :
    ∃ (st : Int) (w1 : World) (attrs : Option (List perf_event_attr_s)) (n : Nat),
      run_perf_stat D X w stat_args = .ok (st, w1) ∧
      w1.evlist.system_wide = false ∧ w1.evlist.cpu = stat_args.cpu ∧
      w1.log.filter Call.is_add_attrs =
        w.log.filter Call.is_add_attrs ++ [Call.evlist_add_attrs attrs n stat_args.cpu] := by
  obtain ⟨w0, h0, hsw0, hcpu0, hlog0⟩ : ∃ w0 : World, run_perf_stat_cmd w stat_args = .ok w0 ∧
      w0.evlist.system_wide = false ∧ w0.evlist.cpu = stat_args.cpu ∧ w0.log = w.log :=
    ⟨_, run_perf_stat_cmd_of_fit w stat_args cmd_str hcmd, hsw, rfl, rfl⟩
  have hcalls : ∀ (attrs : Option (List perf_event_attr_s)) (n : Nat),
      add_attrs_calls D w0.evlist.system_wide w0.evlist.cpu attrs n
        = [Call.evlist_add_attrs attrs n stat_args.cpu] := by
    intro attrs n
    unfold add_attrs_calls
    rw [hsw0, hcpu0]
    rfl
  rcases hreach with ⟨hev, hz⟩ | ⟨evstr, n, hev, hc, hn, hz⟩
  · obtain ⟨st1, wr, h1, h2, h3⟩ := add_default_attributes_spec D X
      { w0 with evlist := { w0.evlist with defult_attrs := true } } hz
    have h2a : wr.log = w.log ++ Call.zalloc (D.default_hw_config.length * D.sizeof_attr) ::
        add_attrs_calls D w0.evlist.system_wide w0.evlist.cpu
          (some (D.default_hw_config.map (hw_attr D))) D.default_hw_config.length := by
      rw [h2]
      exact congrArg (· ++ _) hlog0
    have hreg : run_perf_stat_register D X w0 stat_args = .ok (st1, wr) := by
      simp only [run_perf_stat_register, hev]
      exact h1
    obtain ⟨st, w1, hr, he, hf⟩ := run_perf_stat_after_register D X w w0 wr stat_args st1 h0 hreg
    refine ⟨st, w1, some (D.default_hw_config.map (hw_attr D)), D.default_hw_config.length,
      hr, ?_, ?_, ?_⟩
    · rw [he, h3]
      exact hsw0
    · rw [he, h3]
      exact hcpu0
    · rw [hf, h2a, List.filter_append, filter_add_attrs_registration, hcalls]
  · obtain ⟨st1, wr, filled, h1, _, _, h2, h3⟩ := add_specified_attributes_spec D X
      { w0 with evlist := { w0.evlist with defult_attrs := false } } evstr n hc hn hz
      (fun h => by rw [show w0.evlist.system_wide = true from h] at hsw0; simp at hsw0)
    have hf2 : wr.log.filter Call.is_add_attrs =
        w.log.filter Call.is_add_attrs ++ [Call.evlist_add_attrs (some filled) n stat_args.cpu] := by
      have h2a : wr.log = w.log ++ Call.zalloc (n * D.sizeof_attr) ::
          add_attrs_calls D w0.evlist.system_wide w0.evlist.cpu (some filled) n := by
        rw [h2]
        exact congrArg (· ++ _) hlog0
      rw [h2a, List.filter_append, filter_add_attrs_registration, hcalls]
    by_cases hst : st1 ≠ 0
    · have hreg : run_perf_stat_register D X w0 stat_args
          = .ok (st1, wr.call Call.stat_cmds_help) := by
        simp only [run_perf_stat_register, hev, h1]
        rw [if_pos hst]
      obtain ⟨st, w1, hr, he, hf⟩ :=
        run_perf_stat_after_register D X w w0 _ stat_args st1 h0 hreg
      refine ⟨st, w1, some filled, n, hr, ?_, ?_, ?_⟩
      · rw [he]
        simp only [World.call]
        rw [h3]
        exact hsw0
      · rw [he]
        simp only [World.call]
        rw [h3]
        exact hcpu0
      · rw [hf]
        simp only [World.call, List.filter_append]
        rw [hf2]
        simp [Call.is_add_attrs]
    · have hreg : run_perf_stat_register D X w0 stat_args = .ok (st1, wr) := by
        simp only [run_perf_stat_register, hev, h1]
        rw [if_neg hst]
      obtain ⟨st, w1, hr, he, hf⟩ :=
        run_perf_stat_after_register D X w w0 wr stat_args st1 h0 hreg
      refine ⟨st, w1, some filled, n, hr, ?_, ?_, ?_⟩
      · rw [he, h3]
        exact hsw0
      · rw [he, h3]
        exact hcpu0
      · rw [hf, hf2]

/-- C12. `cmd_stat` sets `evlist->system_wide` to true if and only if both
`stat_args.pid` and `stat_args.cpu` are -1. With an explicit CPU or pid,
`system_wide` is false, `evlist->cpu` is the copy of `stat_args->cpu`, and a run
that reaches the registration (default events or a valid spec, allocation
successful, command line fitting `cmd_str`) calls `evlist_add_attrs` exactly
once, with that CPU. -/
theorem targeting_mode (D : Decls) (X : Env) (evlist : evlist_s) (stat_args : stat_args_s)
    (cmd_str : List Char) :
    ((cmd_stat_evlist evlist stat_args).system_wide = true ↔
      stat_args.pid = -1 ∧ stat_args.cpu = -1) ∧
    (¬ (stat_args.pid = -1 ∧ stat_args.cpu = -1) →
      cmd_str_loop stat_args.cmd_args [] = .ok cmd_str →
      ((stat_args.events = none ∧
          X.zalloc (D.default_hw_config.length * D.sizeof_attr) = true) ∨
        (∃ (evstr : List Char) (n : Nat), stat_args.events = some evstr ∧
          check_event D evstr = .ok n ∧ n ≠ 0 ∧ X.zalloc (n * D.sizeof_attr) = true)) →
      (cmd_stat_evlist evlist stat_args).system_wide = false ∧
      ∃ (st : Int) (w1 : World) (attrs : Option (List perf_event_attr_s)) (n : Nat),
        run_perf_stat D X
            { evlist := cmd_stat_evlist evlist stat_args, log := [Call.evlist_new] } stat_args
          = .ok (st, w1) ∧
        w1.evlist.system_wide = false ∧ w1.evlist.cpu = stat_args.cpu ∧
        w1.log.filter Call.is_add_attrs = [Call.evlist_add_attrs attrs n stat_args.cpu]) := by
  have hiff : (cmd_stat_evlist evlist stat_args).system_wide = true ↔
      stat_args.pid = -1 ∧ stat_args.cpu = -1 := by
    unfold cmd_stat_evlist
    by_cases h : stat_args.pid = -1 ∧ stat_args.cpu = -1
    · simp only [h, and_self, if_true]
    · simp only [h, if_false]
      simp
  refine ⟨hiff, ?_⟩
  intro hexp hcmd hreach
  have hsw : (cmd_stat_evlist evlist stat_args).system_wide = false := by
    cases hb : (cmd_stat_evlist evlist stat_args).system_wide with
    | false => rfl
    | true => exact absurd (hiff.mp hb) hexp
  refine ⟨hsw, ?_⟩
  obtain ⟨st, w1, attrs, n, h1, h2, h3, h4⟩ := single_target_registration D X
    { evlist := cmd_stat_evlist evlist stat_args, log := [Call.evlist_new] } stat_args cmd_str
    hsw hcmd hreach
  exact ⟨st, w1, attrs, n, h1, h2, h3, by simpa [Call.is_add_attrs] using h4⟩

/-- C12 for `perf stat -C 1 ls -l`. -/
theorem targeting_mode_witness :
    (cmd_stat_evlist exEvlist exCmdArgs).system_wide = false ∧
    ∃ (st : Int) (w1 : World) (attrs : Option (List perf_event_attr_s)) (n : Nat),
      run_perf_stat exDecls exEnv
          { evlist := cmd_stat_evlist exEvlist exCmdArgs, log := [Call.evlist_new] } exCmdArgs
        = .ok (st, w1) ∧
      w1.evlist.system_wide = false ∧ w1.evlist.cpu = exCmdArgs.cpu ∧
      w1.log.filter Call.is_add_attrs = [Call.evlist_add_attrs attrs n exCmdArgs.cpu] :=
  (targeting_mode exDecls exEnv exEvlist exCmdArgs "ls -l ".toList).2
    (by decide) rfl (Or.inl ⟨rfl, rfl⟩)

end PerfStat
